import Mathlib

/-
  Verification development for the lexical-analysis core of the 8cc C compiler.

  The development shallowly embeds the C sources:
    * the scope-chained open-addressed string map (hash table source file);
    * the character input stream (file.c): string/file backed readers, CRLF
      canonicalization, EOF newline synthesis, pushback, line splicing;
    * the growable-buffer escape helpers and the pp-token lexer (buffer.c):
      skip_space, read_number, read_ident, do_read_token, lex, skip_cond_incl,
      the token buffer stack.

  Machine integers are modelled as Nat or Int with explicit reductions mod

  2 ^ 32 where the C code relies on unsigned wraparound.  C functions whose
  loops have no structural termination argument take an explicit fuel
  parameter and return none (or a designated fallback) when the fuel runs
  out; every concrete run in this file stays far below its fuel.  Stacks kept
  by the C code in growable arrays (the file stack, the token-buffer stack,
  the per-file pushback array) are represented as Lean lists with the TOP of
  the stack at the HEAD of the list; the C code pushes and pops at the end of
  the array, so the two representations are mirror images and every access
  the code performs (vec_push, vec_pop, vec_tail, vec_len) maps to cons,
  tail, head, length.
-/

set_option maxRecDepth 16384

namespace EightCC

/-! ## Scope-chained hash map (the map source file) -/

/-- Key bytes of a NUL-terminated C string: the nonzero bytes before the NUL. -/
abbrev Key := List Nat

/-- FNV hash from the map source: seed 2166136261, per byte XOR with the byte
then multiply by 16777619, in 32-bit unsigned arithmetic. -/
def fnv_hash (k : Key) : Nat :=
  k.foldl (fun r c => ((r ^^^ c) * 16777619) % 4294967296) 2166136261

/-- One slot of the open-addressed table.  The C code stores keys and values
in two parallel arrays; a NULL key is an empty slot, the TOMBSTONE sentinel
pointer marks a deleted slot, and otherwise the slot holds a live key with
its value.  Values are opaque handles (void pointers); we model a handle as
Option Nat with none standing for the NULL pointer. -/
inductive Slot where
  | empty : Slot
  | tomb : Slot
  | live (key : Key) (val : Option Nat) : Slot
  deriving DecidableEq, Repr

/-- One level of the map.  The C struct carries the parent pointer, the two
slot arrays, size, nelem (live entries) and nused (live plus tombstoned).
The size field always equals the length of the slot array, so we drop it and
use the list length; the parent chain is kept separately as a list of
levels. -/
structure HMap where
  slots : List Slot
  nelem : Nat
  nused : Nat
  deriving DecidableEq, Repr

/-- A scope chain of maps, innermost level first (the C parent pointers). -/
abbrev MapChain := List HMap

/-- Probe step of the C code: i = (i + 1) & mask with mask = size - 1. -/
def probe_next (size i : Nat) : Nat := (i + 1) &&& (size - 1)

/-- Home slot of a key: hash(key) & (size - 1). -/
def probe_home (size : Nat) (k : Key) : Nat := fnv_hash k &&& (size - 1)

/-- Lookup loop of map_get_nostack: walk from the home slot until a NULL
(empty) slot ends the probe, skipping tombstones, and return the stored value
of the first live slot whose key compares equal.  The C loop runs without a
bound; the table always keeps an empty slot, so size probes suffice, and we
pass the size as fuel (fuel exhaustion yields none, which the C code could
only reach by looping forever on a table with no empty slot). -/
def map_get_loop (slots : List Slot) (k : Key) : Nat → Nat → Option Nat
  | _, 0 => none
  | i, fuel + 1 =>
    match slots.getD i Slot.empty with
    | Slot.empty => none
    | Slot.tomb => map_get_loop slots k (probe_next slots.length i) fuel
    | Slot.live k2 v =>
      if k2 = k then v else map_get_loop slots k (probe_next slots.length i) fuel

/-- map_get_nostack: NULL key array means a miss, otherwise probe from the
home slot.  A none result models the C function returning NULL. -/
def map_get_nostack (m : HMap) (k : Key) : Option Nat :=
  if m.slots = [] then none
  else map_get_loop m.slots k (probe_home m.slots.length k) m.slots.length

/-- map_get: try the level itself, and on a NULL result fall through to the
parent chain.  Note that a live binding whose stored value is NULL also falls
through, exactly like the C test `if (r) return r;`. -/
def map_get (c : MapChain) (k : Key) : Option Nat :=
  match c with
  | [] => none
  | m :: parents =>
    match map_get_nostack m k with
    | some v => some v
    | none => map_get parents k

/-- Rehash trigger: the C code compares nused < size * 0.7 in double
arithmetic.  The size is always a power of two, 0.7 * 2 ^ k is never an
integer, and the double product undershoots the exact value by less than one
ulp, so the comparison agrees with the exact rational test nused * 10 <
size * 7 on every integer nused; the resize test nelem < size * 0.35 is
integerized the same way as nelem * 20 < size * 7. -/
def rehash_needed (m : HMap) : Bool := !(m.nused * 10 < m.slots.length * 7)

/-- Reinsertion loop of maybe_rehash: the fresh table has no tombstones, so
the loop only skips occupied slots and stores at the first empty one. -/
def rehash_ins_loop (slots : List Slot) (k : Key) (v : Option Nat) : Nat → Nat → List Slot
  | _, 0 => slots
  | j, fuel + 1 =>
    match slots.getD j Slot.empty with
    | Slot.empty => slots.set j (Slot.live k v)
    | _ => rehash_ins_loop slots k v (probe_next slots.length j) fuel

/-- maybe_rehash: allocate a 16-slot table when the key array is NULL;
otherwise, when the load trigger fires, rebuild into a table of the same size
(clearing tombstones) or twice the size, walking the old array in index
order and reinserting every live slot; nused becomes nelem. -/
def maybe_rehash (m : HMap) : HMap :=
  if m.slots = [] then
    { slots := List.replicate 16 Slot.empty, nelem := m.nelem, nused := m.nused }
  else if m.nused * 10 < m.slots.length * 7 then m
  else
    let newsize := if m.nelem * 20 < m.slots.length * 7 then m.slots.length
                   else m.slots.length * 2
    let fresh :=
      m.slots.foldl
        (fun acc s =>
          match s with
          | Slot.live k v => rehash_ins_loop acc k v (probe_home acc.length k) acc.length
          | _ => acc)
        (List.replicate newsize Slot.empty)
    { slots := fresh, nelem := m.nelem, nused := m.nelem }

/-- Insert loop of map_put: stop at the first empty or tombstoned slot and
store there (bumping nelem, and nused only on an empty slot), or update the
value in place when a live key compares equal. -/
def map_put_loop (m : HMap) (k : Key) (v : Option Nat) : Nat → Nat → HMap
  | _, 0 => m
  | i, fuel + 1 =>
    match m.slots.getD i Slot.empty with
    | Slot.empty =>
      { slots := m.slots.set i (Slot.live k v), nelem := m.nelem + 1, nused := m.nused + 1 }
    | Slot.tomb =>
      { slots := m.slots.set i (Slot.live k v), nelem := m.nelem + 1, nused := m.nused }
    | Slot.live k2 _ =>
      if k2 = k then { m with slots := m.slots.set i (Slot.live k2 v) }
      else map_put_loop m k v (probe_next m.slots.length i) fuel

/-- map_put: maybe_rehash, then probe from the home slot. -/
def map_put (m : HMap) (k : Key) (v : Option Nat) : HMap :=
  let m2 := maybe_rehash m
  map_put_loop m2 k v (probe_home m2.slots.length k) m2.slots.length

/-- Removal loop of map_remove: walk until an empty slot ends the probe,
skip tombstones and live slots with a different key, and turn the first live
slot with an equal key into a tombstone (the C code also nulls the value
array entry), decrementing nelem. -/
def map_remove_loop (m : HMap) (k : Key) : Nat → Nat → HMap
  | _, 0 => m
  | i, fuel + 1 =>
    match m.slots.getD i Slot.empty with
    | Slot.empty => m
    | Slot.tomb => map_remove_loop m k (probe_next m.slots.length i) fuel
    | Slot.live k2 _ =>
      if k2 = k then { m with slots := m.slots.set i Slot.tomb, nelem := m.nelem - 1 }
      else map_remove_loop m k (probe_next m.slots.length i) fuel

/-- map_remove: NULL key array is a no-op, otherwise probe from home. -/
def map_remove (m : HMap) (k : Key) : HMap :=
  if m.slots = [] then m
  else map_remove_loop m k (probe_home m.slots.length k) m.slots.length

/-- map_len returns nelem. -/
def map_len (m : HMap) : Nat := m.nelem

/-- make_map: a fresh 16-slot table with no parent link. -/
def make_map : HMap := { slots := List.replicate 16 Slot.empty, nelem := 0, nused := 0 }

/-! Concrete run for claim C1.  The keys are the one-byte strings "a" (97)
and "q" (113); both hash to home slot 12 of a 16-slot table, so the second
key probes to slot 13 while slot 12 is occupied.  Removing "a" leaves a
tombstone at slot 12; the next put of "q" reuses that tombstone, after which
the table holds TWO live slots keyed "q".  A single remove of "q" tombstones
only the first of them. -/

/-- Byte list of the C string "a". -/
def keyA : Key := [97]

/-- Byte list of the C string "q". -/
def keyQ : Key := [113]

/-- The operation sequence of the C1 counterexample, started on a fresh map:
put(a,1); put(q,2); remove(a); put(q,3); remove(q). -/
def c1_final : HMap :=
  map_remove (map_put (map_remove (map_put (map_put make_map keyA (some 1)) keyQ (some 2)) keyA) keyQ (some 3)) keyQ

/-! ## Character input stream (file.c)

Characters are C int values: the bytes 0..255, or -1 for EOF.  A stream is
backed either by a NUL-terminated string (a cursor into its bytes) or by a
stdio FILE (a byte sequence consumed by getc, with ungetc pushing one byte
back, which for a read-only stream is just a cons).  The end of the byte
list models the NUL terminator / end of file. -/

/-- Backing store of a File: the string cursor p, or the unread part of the
stdio stream. -/
inductive Backing where
  | str (p : List Nat) : Backing
  | fio (rest : List Nat) : Backing
  deriving DecidableEq, Repr

/-- The File struct of file.c: backing store, 1-based line and column, the
last character delivered by the backing reader (0 after calloc, -1 once EOF
is reached), the fixed pushback buffer (capacity 3 in C; top of the stack at
the head of the list), and the per-file token counter. -/
structure File8 where
  backing : Backing
  line : Int := 1
  column : Int := 1
  last : Int := 0
  buf : List Int := []
  ntok : Nat := 0
  deriving DecidableEq, Repr

/-- A string-backed file as produced by make_file_string. -/
def make_file_string (bs : List Nat) : File8 := { backing := Backing.str bs }

/-- A FILE-backed file as produced by make_file (the stat call only fills the
mtime field, which nothing in the lexer reads, so it is dropped). -/
def make_file (bs : List Nat) : File8 := { backing := Backing.fio bs }

/-- readc_file: getc a byte; at end of stream synthesize one final newline
unless the previous character was a newline or EOF; canonicalize a CR byte
to a newline, consuming an immediately following LF (the lookahead byte is
pushed back with ungetc when it is not an LF, and ungetc on EOF is a no-op).
Records the returned character in the last field. -/
def readc_file (f : File8) : Int × File8 :=
  match f.backing with
  | Backing.str _ => (-1, f)
  | Backing.fio content =>
    match content with
    | [] =>
      let c : Int := if f.last = 10 ∨ f.last = -1 then -1 else 10
      (c, { f with last := c })
    | b :: rest =>
      if b = 13 then
        if rest.head? = some 10 then (10, { f with backing := Backing.fio rest.tail, last := 10 })
        else (10, { f with backing := Backing.fio rest, last := 10 })
      else ((b : Int), { f with backing := Backing.fio rest, last := (b : Int) })

/-- readc_string: the same canonicalization on the string cursor.  The C code
tests *p == 0, so a NUL byte inside the list also ends the stream (and is
never consumed). -/
def readc_string (f : File8) : Int × File8 :=
  match f.backing with
  | Backing.fio _ => (-1, f)
  | Backing.str p =>
    match p with
    | [] =>
      let c : Int := if f.last = 10 ∨ f.last = -1 then -1 else 10
      (c, { f with last := c })
    | b :: rest =>
      if b = 0 then
        -- the cursor stands on the NUL terminator and is not advanced
        let c : Int := if f.last = 10 ∨ f.last = -1 then -1 else 10
        (c, { f with last := c })
      else if b = 13 then
        if rest.head? = some 10 then (10, { f with backing := Backing.str rest.tail, last := 10 })
        else (10, { f with backing := Backing.str rest, last := 10 })
      else ((b : Int), { f with backing := Backing.str rest, last := (b : Int) })

/-- Dispatch of get() on the backing store (the C code tests f->file). -/
def readc_backing (f : File8) : Int × File8 :=
  match f.backing with
  | Backing.fio _ => readc_file f
  | Backing.str _ => readc_string f

/-- Position update at the end of get(): a newline starts the next line at
column 1, any other non-EOF character advances the column. -/
def get_advance (f : File8) (c : Int) : File8 :=
  if c = 10 then { f with line := f.line + 1, column := 1 }
  else if c ≠ -1 then { f with column := f.column + 1 }
  else f

/-- The file stack (the files vector of file.c), top of the stack first. -/
abbrev Files := List File8

/-- get(): read from the current (top) file, taking the pushback buffer
first, then update the position.  The C code calls vec_tail on the files
vector, which is never empty while the lexer runs; on an empty stack we
return EOF. -/
def get (fs : Files) : Int × Files :=
  match fs with
  | [] => (-1, [])
  | f :: rest =>
    match f.buf with
    | c :: bs => (c, get_advance { f with buf := bs } c :: rest)
    | [] =>
      let (c, f2) := readc_backing f
      (c, get_advance f2 c :: rest)

/-- unreadc: EOF is a no-op; otherwise push the character onto the current
pushback buffer and move the position back (a newline restores column 1 and
the previous line).  The C code asserts that at most 3 characters are
buffered; the model keeps the pure stack behaviour, and every use below
stays within that bound. -/
def unreadc (c : Int) (fs : Files) : Files :=
  if c = -1 then fs
  else
    match fs with
    | [] => []
    | f :: rest =>
      let f2 := { f with buf := c :: f.buf }
      (if c = 10 then { f2 with column := 1, line := f2.line - 1 }
       else { f2 with column := f2.column - 1 }) :: rest

/-- readc(): loop over get().  EOF pops the finished file and continues in
the file below (the last file's EOF is returned); a backslash looks one
character ahead and silently swallows a backslash-newline pair (line
splicing), pushing any other lookahead back.  The loop takes fuel; none
models a run that exceeds it (the C loop always terminates on finite
input). -/
def readc : Nat → Files → Option (Int × Files)
  | 0, _ => none
  | fuel + 1, fs =>
    let (c, fs1) := get fs
    if c = -1 then
      if fs1.length = 1 then some (-1, fs1)
      else readc fuel fs1.tail
    else if c = 92 then
      let (c2, fs2) := get fs1
      if c2 = 10 then readc fuel fs2
      else some (92, unreadc c2 fs2)
    else some (c, fs1)

/-- Sequence of characters delivered by repeated readc_string calls, up to
(not including) the first EOF.  The fuel bounds the number of calls. -/
def drain_string : Nat → File8 → List Int
  | 0, _ => []
  | fuel + 1, f =>
    let (c, f2) := readc_string f
    if c = -1 then [] else c :: drain_string fuel f2

/-- Sequence of characters delivered by repeated readc_file calls, up to the
first EOF. -/
def drain_file : Nat → File8 → List Int
  | 0, _ => []
  | fuel + 1, f =>
    let (c, f2) := readc_file f
    if c = -1 then [] else c :: drain_file fuel f2

/-- CRLF canonicalization on a raw byte list: CR LF and lone CR become LF.
This is the non-EOF part of the two readers, lifted to whole lists; the
delivered character sequence is proved equal to this plus the synthesized
final newline. -/
def crlf : List Nat → List Int
  | [] => []
  | b :: rest =>
    if b = 13 then 10 :: crlf (if rest.head? = some 10 then rest.tail else rest)
    else (b : Int) :: crlf rest
termination_by l => l.length
decreasing_by
  all_goals simp
  split
  case isTrue h =>
    cases rest
    · simp
    · simp
      omega
  case isFalse h => simp

/-- Does a character list end with a newline? -/
def ends_nl (l : List Int) : Bool := l.getLast? = some 10

/-! ## Tokens and the lexer state (buffer.c)

The token-level lexer sits on top of the character stream.  Its global state
in C is the files vector (shared with file.c), the buffers vector (the token
buffer stack) and the static Pos set by mark(); we bundle the three into one
state record.  Token payload strings (identifier and number spellings) are
kept as the list of character codes written to the growable buffer, without
the terminating NUL that C appends before taking the buffer body. -/

/-- Token kinds of 8cc. -/
inductive TokKind where
  | TIDENT | TKEYWORD | TNUMBER | TCHAR | TSTRING | TEOF | TINVALID | TNEWLINE | TSPACE
  deriving DecidableEq, Repr

/-- Modelled from the spec: keyword ids live in an int; single-character
operators use their byte value and multi-character operators use a disjoint
enum space (KHASHHASH, KELLIPSIS, OP_...).  The numeric enum values are
declared in the 8cc.h header, which is not among the sources, so the model
keeps them as a sum type with the byte-valued case explicit. -/
inductive KwId where
  | chr (c : Int)
  | hashhash | ellipsis
  | inc | dec | arrow
  | logand | logor
  | op_eq | op_ne | op_le | op_ge
  | sal | sar
  | a_add | a_sub | a_mul | a_div | a_mod
  | a_and | a_or | a_xor | a_sal | a_sar
  deriving DecidableEq, Repr

/-- String-literal encoding tags (values from the spec; 8cc.h is not among
the sources, and nothing below depends on the numbers). -/
def ENC_NONE : Nat := 0
/-- char16_t encoding tag. -/
def ENC_CHAR16 : Nat := 1
/-- char32_t encoding tag. -/
def ENC_CHAR32 : Nat := 2
/-- UTF-8 encoding tag. -/
def ENC_UTF8 : Nat := 3
/-- wchar_t encoding tag. -/
def ENC_WCHAR : Nat := 4

/-- The Token struct: kind, payloads (sval for identifier/number/string
spellings, id for keywords, c for character constants, slen and enc for
strings), the bol and space flags, and position data.  The hideset slot is
owned by the preprocessor, which is outside the sources, and the lexer only
ever clears it, so it is dropped from the model. -/
structure Token where
  kind : TokKind
  sval : List Int := []
  id : KwId := KwId.chr 0
  c : Int := 0
  slen : Nat := 0
  enc : Nat := 0
  bol : Bool := false
  space : Bool := false
  line : Int := 0
  column : Int := 0
  count : Nat := 0
  deriving DecidableEq, Repr

/-- The static space token (all fields zero but the kind). -/
def space_token : Token := { kind := TokKind.TSPACE }

/-- The static newline token. -/
def newline_token : Token := { kind := TokKind.TNEWLINE }

/-- The static eof token. -/
def eof_token : Token := { kind := TokKind.TEOF }

/-- The static Pos variable filled in by mark(). -/
structure Pos where
  line : Int
  column : Int
  deriving DecidableEq, Repr

/-- Lexer state: the file stack of file.c, the token buffer stack (top
buffer at the head; within a buffer the token popped next is at the head,
mirroring pushes and pops at the end of the C vector), and the mark
position. -/
structure LexSt where
  files : Files
  buffers : List (List Token)
  pos : Pos := { line := 0, column := 0 }
  deriving DecidableEq, Repr

/-- readc lifted to the lexer state. -/
def readcL (fuel : Nat) (s : LexSt) : Option (Int × LexSt) :=
  match readc fuel s.files with
  | none => none
  | some (c, fs) => some (c, { s with files := fs })

/-- unreadc lifted to the lexer state. -/
def unreadcL (c : Int) (s : LexSt) : LexSt :=
  { s with files := unreadc c s.files }

/-- Column of the current file (current_file()->column). -/
def current_column (s : LexSt) : Int :=
  match s.files with
  | f :: _ => f.column
  | [] => 0

/-- get_pos: position of the current file with a column delta. -/
def get_pos (delta : Int) (s : LexSt) : Pos :=
  match s.files with
  | f :: _ => { line := f.line, column := f.column + delta }
  | [] => { line := 0, column := delta }

/-- mark(): remember the position the next token starts at. -/
def mark (s : LexSt) : LexSt := { s with pos := get_pos 0 s }

/-- peek(): read one character and immediately unread it. -/
def peek (fuel : Nat) (s : LexSt) : Option (Int × LexSt) := do
  let (r, s) ← readcL fuel s
  return (r, unreadcL r s)

/-- next(expect): consume the next character when it matches, otherwise
unread it. -/
def next (fuel : Nat) (expect : Int) (s : LexSt) : Option (Bool × LexSt) := do
  let (c, s) ← readcL fuel s
  if c = expect then return (true, s)
  else return (false, unreadcL c s)

/-- make_token: copy the template, stamp the mark position onto it, and take
the current intra-file token count, bumping the counter of the current
file.  (The C code also stores the file pointer and clears the hideset.) -/
def make_token (tmpl : Token) (s : LexSt) : Token × LexSt :=
  match s.files with
  | [] => ({ tmpl with line := s.pos.line, column := s.pos.column, count := 0 }, s)
  | f :: rest =>
    ({ tmpl with line := s.pos.line, column := s.pos.column, count := f.ntok },
     { s with files := { f with ntok := f.ntok + 1 } :: rest })

/-- make_ident. -/
def make_ident (p : List Int) (s : LexSt) : Token × LexSt :=
  make_token { kind := TokKind.TIDENT, sval := p } s

/-- make_strtok. -/
def make_strtok (sv : List Int) (len : Nat) (enc : Nat) (s : LexSt) : Token × LexSt :=
  make_token { kind := TokKind.TSTRING, sval := sv, slen := len, enc := enc } s

/-- make_keyword. -/
def make_keyword (id : KwId) (s : LexSt) : Token × LexSt :=
  make_token { kind := TokKind.TKEYWORD, id := id } s

/-- make_number. -/
def make_number (sv : List Int) (s : LexSt) : Token × LexSt :=
  make_token { kind := TokKind.TNUMBER, sval := sv } s

/-- make_invalid. -/
def make_invalid (c : Int) (s : LexSt) : Token × LexSt :=
  make_token { kind := TokKind.TINVALID, c := c } s

/-- make_char. -/
def make_char (c : Int) (enc : Nat) (s : LexSt) : Token × LexSt :=
  make_token { kind := TokKind.TCHAR, c := c, enc := enc } s

/-- iswhitespace: space, tab, form feed, vertical tab. -/
def iswhitespace (c : Int) : Bool := c = 32 ∨ c = 9 ∨ c = 12 ∨ c = 11

/-- ctype isdigit in the C locale, on int characters. -/
def isdigit (c : Int) : Bool := 48 ≤ c ∧ c ≤ 57

/-- ctype isalpha in the C locale. -/
def isalpha (c : Int) : Bool := (65 ≤ c ∧ c ≤ 90) ∨ (97 ≤ c ∧ c ≤ 122)

/-- ctype isalnum in the C locale. -/
def isalnum (c : Int) : Bool := isdigit c || isalpha c

/-- ctype isxdigit in the C locale. -/
def isxdigit (c : Int) : Bool :=
  isdigit c || (65 ≤ c ∧ c ≤ 70) || (97 ≤ c ∧ c ≤ 102)

/-- ctype isprint in the C locale: the printable ASCII range. -/
def isprint (c : Int) : Bool := 32 ≤ c ∧ c ≤ 126

/-- skip_line: consume characters up to end of line; EOF stops, a newline is
pushed back. -/
def skip_line : Nat → LexSt → Option LexSt
  | 0, _ => none
  | fuel + 1, s => do
    let (c, s) ← readcL fuel s
    if c = -1 then return s
    else if c = 10 then return unreadcL c s
    else skip_line fuel s

/-- skip_block_comment: consume until star-slash; EOF inside the comment is
a fatal error (modelled as none). -/
def skip_block_comment_loop : Nat → Bool → LexSt → Option LexSt
  | 0, _, _ => none
  | fuel + 1, maybe_end, s => do
    let (c, s) ← readcL fuel s
    if c = -1 then none
    else if c = 47 ∧ maybe_end then return s
    else skip_block_comment_loop fuel (c = 42) s

/-- skip_block_comment entry (the C function also captures the comment start
position, used only in the error message). -/
def skip_block_comment (fuel : Nat) (s : LexSt) : Option LexSt :=
  skip_block_comment_loop fuel false s

/-- do_skip_space: consume one whitespace character or one comment; on
anything else push the character back and report false. -/
def do_skip_space (fuel : Nat) (s : LexSt) : Option (Bool × LexSt) := do
  let (c, s) ← readcL fuel s
  if c = -1 then return (false, s)
  else if iswhitespace c then return (true, s)
  else if c = 47 then do
    let (b, s) ← next fuel 42 s
    if b then do
      let s ← skip_block_comment fuel s
      return (true, s)
    else do
      let (b, s) ← next fuel 47 s
      if b then do
        let s ← skip_line fuel s
        return (true, s)
      else return (false, unreadcL c s)
  else return (false, unreadcL c s)

/-- Loop of skip_space: keep consuming space runs while do_skip_space
reports progress. -/
def skip_space_loop : Nat → LexSt → Option LexSt
  | 0, _ => none
  | fuel + 1, s => do
    let (b, s) ← do_skip_space fuel s
    if b then skip_space_loop fuel s else return s

/-- skip_space: true when at least one space or comment was skipped. -/
def skip_space (fuel : Nat) (s : LexSt) : Option (Bool × LexSt) := do
  let (b, s) ← do_skip_space fuel s
  if !b then return (false, s)
  else do
    let s ← skip_space_loop fuel s
    return (true, s)

/-- Tail loop of skip_char: consume until a quote or EOF. -/
def skip_char_loop : Nat → Int → LexSt → Option LexSt
  | 0, _, _ => none
  | fuel + 1, c, s =>
    if c = -1 ∨ c = 39 then some s
    else do
      let (c2, s) ← readcL fuel s
      skip_char_loop fuel c2 s

/-- skip_char (used by skip_cond_incl): a leading backslash swallows one
character; then consume until a closing quote or EOF. -/
def skip_char (fuel : Nat) (s : LexSt) : Option LexSt := do
  let (c, s) ← readcL fuel s
  let s ← (if c = 92 then do
             let (_, s) ← readcL fuel s
             pure s
           else pure s)
  let (c2, s) ← readcL fuel s
  skip_char_loop fuel c2 s

/-- skip_string (used by skip_cond_incl): consume until a closing double
quote or EOF; a backslash swallows the next character. -/
def skip_string_loop : Nat → LexSt → Option LexSt
  | 0, _ => none
  | fuel + 1, s => do
    let (c, s) ← readcL fuel s
    if c = -1 ∨ c = 34 then return s
    else if c = 92 then do
      let (_, s) ← readcL fuel s
      skip_string_loop fuel s
    else skip_string_loop fuel s

/-- skip_string entry. -/
def skip_string (fuel : Nat) (s : LexSt) : Option LexSt :=
  skip_string_loop fuel s

/-- strchr("eEpP", c) as a truth value.  strchr also finds the terminating
NUL, so character code 0 tests positive, exactly as in C. -/
def in_eEpP (c : Int) : Bool := c = 101 ∨ c = 69 ∨ c = 112 ∨ c = 80 ∨ c = 0

/-- strchr("+-", c) as a truth value, again with the NUL quirk. -/
def in_pm (c : Int) : Bool := c = 43 ∨ c = 45 ∨ c = 0

/-- Loop of read_number: keep the spelling bytes and the previous character;
accept digits, letters, periods, and a sign immediately after an exponent
character; on the first other character, push it back and build the NUMBER
token from the bytes collected so far (the C code NUL-terminates the buffer
and hands over its body). -/
def read_number_loop : Nat → List Int → Int → LexSt → Option (Token × LexSt)
  | 0, _, _, _ => none
  | fuel + 1, b, last, s => do
    let (c, s) ← readcL fuel s
    let flonum : Bool := in_eEpP last && in_pm c
    if !isdigit c ∧ !isalpha c ∧ c ≠ 46 ∧ !flonum then
      return make_number b (unreadcL c s)
    else read_number_loop fuel (b ++ [c]) c s

/-- read_number: the first character was already consumed by the caller. -/
def read_number (fuel : Nat) (c : Int) (s : LexSt) : Option (Token × LexSt) :=
  read_number_loop fuel [c] c s

/-- nextoct: is the next character an octal digit? -/
def nextoct (fuel : Nat) (s : LexSt) : Option (Bool × LexSt) := do
  let (c, s) ← peek fuel s
  return (decide (48 ≤ c ∧ c ≤ 55), s)

/-- read_octal_char: up to two more octal digits after the first. -/
def read_octal_char (fuel : Nat) (c : Int) (s : LexSt) : Option (Int × LexSt) := do
  let r := c - 48
  let (b, s) ← nextoct fuel s
  if !b then return (r, s)
  else do
    let (d, s) ← readcL fuel s
    let r := r * 8 + (d - 48)
    let (b, s) ← nextoct fuel s
    if !b then return (r, s)
    else do
      let (d, s) ← readcL fuel s
      return (r * 8 + (d - 48), s)

/-- Value of one hex digit character. -/
def hexval (c : Int) : Int :=
  if 48 ≤ c ∧ c ≤ 57 then c - 48
  else if 97 ≤ c ∧ c ≤ 102 then c - 97 + 10
  else c - 65 + 10

/-- Greedy accumulation loop of read_hex_char. -/
def read_hex_loop : Nat → Int → LexSt → Option (Int × LexSt)
  | 0, _, _ => none
  | fuel + 1, r, s => do
    let (c, s) ← readcL fuel s
    if isxdigit c then read_hex_loop fuel (r * 16 + hexval c) s
    else return (r, unreadcL c s)

/-- read_hex_char: at least one hex digit is required (a fatal error, hence
none, otherwise), then digits are consumed greedily. -/
def read_hex_char (fuel : Nat) (s : LexSt) : Option (Int × LexSt) := do
  let (c, s) ← readcL fuel s
  if !isxdigit c then none
  else read_hex_loop fuel (hexval c) (unreadcL c s)

/-- is_valid_ucn: not a surrogate, and not a basic-set ASCII character
except dollar, at sign and backtick. -/
def is_valid_ucn (c : Int) : Bool :=
  if 55296 ≤ c ∧ c ≤ 57343 then false
  else 160 ≤ c ∨ c = 36 ∨ c = 64 ∨ c = 96

/-- Digit loop of read_universal_char: exactly len hex digits, a non-digit
being a fatal error. -/
def read_universal_loop : Nat → Nat → Int → LexSt → Option (Int × LexSt)
  | _, 0, r, s => some (r, s)
  | fuel, n + 1, r, s => do
    let (c, s) ← readcL fuel s
    if isxdigit c then read_universal_loop fuel n (r * 16 + hexval c) s
    else none

/-- read_universal_char: 4 or 8 hex digits, then the validity check (a
fatal error, hence none, when invalid). -/
def read_universal_char (fuel : Nat) (len : Nat) (s : LexSt) : Option (Int × LexSt) := do
  let (r, s) ← read_universal_loop fuel len 0 s
  if is_valid_ucn r then return (r, s) else none

/-- read_escaped_char: the backslash has been consumed.  Simple escapes map
to their code, x to a hex sequence, u and U to universal characters, an
octal digit to an octal sequence; anything else draws a warning and stands
for itself. -/
def read_escaped_char (fuel : Nat) (s : LexSt) : Option (Int × LexSt) := do
  let (c, s) ← readcL fuel s
  if c = 39 ∨ c = 34 ∨ c = 63 ∨ c = 92 then return (c, s)
  else if c = 97 then return (7, s)
  else if c = 98 then return (8, s)
  else if c = 102 then return (12, s)
  else if c = 110 then return (10, s)
  else if c = 114 then return (13, s)
  else if c = 116 then return (9, s)
  else if c = 118 then return (11, s)
  else if c = 101 then return (27, s)
  else if c = 120 then read_hex_char fuel s
  else if c = 117 then read_universal_char fuel 4 s
  else if c = 85 then read_universal_char fuel 8 s
  else if 48 ≤ c ∧ c ≤ 55 then read_octal_char fuel c s
  else return (c, s)

/-- Modelled from the spec: write_utf8 is an external collaborator (a UTF-8
encoder writing a code point into a byte buffer); standard UTF-8. -/
def utf8_encode (r : Int) : List Int :=
  let n := r.toNat
  if n < 128 then [(n : Int)]
  else if n < 2048 then [(192 + n / 64 : Int), (128 + n % 64 : Int)]
  else if n < 65536 then
    [(224 + n / 4096 : Int), (128 + n / 64 % 64 : Int), (128 + n % 64 : Int)]
  else
    [(240 + n / 262144 : Int), (128 + n / 4096 % 64 : Int),
     (128 + n / 64 % 64 : Int), (128 + n % 64 : Int)]

/-- Conversion of an int to char on the reference target: wrap into the
signed byte range. -/
def to_char (r : Int) : Int := (r + 128) % 256 - 128

/-- Loop of read_ident: letters, digits, bytes with the top bit set
(including EOF, whose two's complement representation makes c & 0x80
nonzero — unreachable because the stream always delivers a newline before
EOF), underscore and dollar continue the identifier; a backslash starting a
universal character name is decoded and re-encoded as UTF-8; anything else
is pushed back and ends the token. -/
def read_ident_loop : Nat → List Int → LexSt → Option (Token × LexSt)
  | 0, _, _ => none
  | fuel + 1, b, s => do
    let (c, s) ← readcL fuel s
    if isalnum c ∨ Int.land c 128 ≠ 0 ∨ c = 95 ∨ c = 36 then
      read_ident_loop fuel (b ++ [c]) s
    else if c = 92 then do
      -- the C disjunction of two peek() calls short-circuits: the second
      -- peek runs only when the first did not see a lowercase u
      let (p1, s) ← peek fuel s
      if p1 = 117 then do
        let (r, s) ← read_escaped_char fuel s
        read_ident_loop fuel (b ++ utf8_encode r) s
      else do
        let (p2, s) ← peek fuel s
        if p2 = 85 then do
          let (r, s) ← read_escaped_char fuel s
          read_ident_loop fuel (b ++ utf8_encode r) s
        else return make_ident b (unreadcL c s)
    else return make_ident b (unreadcL c s)

/-- read_ident: the first character was already consumed by the caller. -/
def read_ident (fuel : Nat) (c : Int) (s : LexSt) : Option (Token × LexSt) :=
  read_ident_loop fuel [c] s

/-- Loop of read_string: accumulate bytes until the closing quote (EOF is a
fatal error); escapes are decoded, universal-character escapes are written
as UTF-8 and other escapes as the single decoded byte (buf_write narrows
the int to char when storing). -/
def read_string_loop : Nat → List Int → LexSt → Option (List Int × LexSt)
  | 0, _, _ => none
  | fuel + 1, b, s => do
    let (c, s) ← readcL fuel s
    if c = -1 then none
    else if c = 34 then return (b, s)
    else if c ≠ 92 then read_string_loop fuel (b ++ [c]) s
    else do
      -- the C disjunction of two peek() calls short-circuits
      let (p1, s) ← peek fuel s
      let (isucs, s) ←
        (if p1 = 117 then pure (true, s)
         else do
           let (p2, s) ← peek fuel s
           pure (p2 = 85, s))
      let (r, s) ← read_escaped_char fuel s
      if isucs then read_string_loop fuel (b ++ utf8_encode r) s
      else read_string_loop fuel (b ++ [to_char r]) s

/-- read_string: the token body plus its length counting the terminating
NUL the C code appends (buf_len after buf_write of 0). -/
def read_string (fuel : Nat) (enc : Nat) (s : LexSt) : Option (Token × LexSt) := do
  let (b, s) ← read_string_loop fuel [] s
  return make_strtok b (b.length + 1) enc s

/-- read_char: one (possibly escaped) character, then the closing quote (a
fatal error otherwise); with no encoding prefix the value is narrowed to
char. -/
def read_char (fuel : Nat) (enc : Nat) (s : LexSt) : Option (Token × LexSt) := do
  let (c, s) ← readcL fuel s
  let (r, s) ← (if c = 92 then read_escaped_char fuel s else pure (c, s))
  let (c2, s) ← readcL fuel s
  if c2 ≠ 39 then none
  else if enc = ENC_NONE then return make_char (to_char r) enc s
  else return make_char r enc s

/-- read_hash_digraph: recognize percent-colon spellings; returns no token
when the lookahead does not form a digraph. -/
def read_hash_digraph (fuel : Nat) (s : LexSt) : Option (Option Token × LexSt) := do
  let (b, s) ← next fuel 62 s
  if b then
    let (t, s) := make_keyword (KwId.chr 125) s
    return (some t, s)
  else do
    let (b, s) ← next fuel 58 s
    if b then do
      let (b2, s) ← next fuel 37 s
      if b2 then do
        let (b3, s) ← next fuel 58 s
        if b3 then
          let (t, s) := make_keyword KwId.hashhash s
          return (some t, s)
        else
          let s := unreadcL 37 s
          let (t, s) := make_keyword (KwId.chr 35) s
          return (some t, s)
      else
        let (t, s) := make_keyword (KwId.chr 35) s
        return (some t, s)
    else return (none, s)

/-- read_rep: two-way lookahead operator. -/
def read_rep (fuel : Nat) (expect : Int) (t1 els : KwId) (s : LexSt) : Option (Token × LexSt) := do
  let (b, s) ← next fuel expect s
  return make_keyword (if b then t1 else els) s

/-- read_rep2: three-way lookahead operator. -/
def read_rep2 (fuel : Nat) (e1 : Int) (t1 : KwId) (e2 : Int) (t2 : KwId) (els : KwId)
    (s : LexSt) : Option (Token × LexSt) := do
  let (b, s) ← next fuel e1 s
  if b then return make_keyword t1 s
  else do
    let (b, s) ← next fuel e2 s
    return make_keyword (if b then t2 else els) s

/-- do_read_token: skip spaces (yielding the shared space token when any
were present), mark the token start, read one character and dispatch on it
exactly as the C switch does.  The identifier case ranges deliberately leave
out L, U and u, which get their own cases, and the bytes 0xFE and 0xFF,
which fall to the invalid-token default. -/
def do_read_token (fuel : Nat) (s : LexSt) : Option (Token × LexSt) := do
  let (sp, s) ← skip_space fuel s
  if sp then return (space_token, s)
  else do
    let s := mark s
    let (c, s) ← readcL fuel s
    if c = 10 then return (newline_token, s)
    else if c = 58 then do
      let (b, s) ← next fuel 62 s
      return make_keyword (KwId.chr (if b then 93 else 58)) s
    else if c = 35 then do
      let (b, s) ← next fuel 35 s
      return make_keyword (if b then KwId.hashhash else KwId.chr 35) s
    else if c = 43 then read_rep2 fuel 43 KwId.inc 61 KwId.a_add (KwId.chr 43) s
    else if c = 42 then read_rep fuel 61 KwId.a_mul (KwId.chr 42) s
    else if c = 61 then read_rep fuel 61 KwId.op_eq (KwId.chr 61) s
    else if c = 33 then read_rep fuel 61 KwId.op_ne (KwId.chr 33) s
    else if c = 38 then read_rep2 fuel 38 KwId.logand 61 KwId.a_and (KwId.chr 38) s
    else if c = 124 then read_rep2 fuel 124 KwId.logor 61 KwId.a_or (KwId.chr 124) s
    else if c = 94 then read_rep fuel 61 KwId.a_xor (KwId.chr 94) s
    else if c = 34 then read_string fuel ENC_NONE s
    else if c = 39 then read_char fuel ENC_NONE s
    else if c = 47 then do
      let (b, s) ← next fuel 61 s
      return make_keyword (if b then KwId.a_div else KwId.chr 47) s
    else if (97 ≤ c ∧ c ≤ 116) ∨ (118 ≤ c ∧ c ≤ 122) ∨ (65 ≤ c ∧ c ≤ 75)
        ∨ (77 ≤ c ∧ c ≤ 84) ∨ (86 ≤ c ∧ c ≤ 90) ∨ c = 95 ∨ c = 36
        ∨ (128 ≤ c ∧ c ≤ 253) then
      read_ident fuel c s
    else if 48 ≤ c ∧ c ≤ 57 then read_number fuel c s
    else if c = 76 ∨ c = 85 then do
      let enc := if c = 76 then ENC_WCHAR else ENC_CHAR32
      let (b, s) ← next fuel 34 s
      if b then read_string fuel enc s
      else do
        let (b, s) ← next fuel 39 s
        if b then read_char fuel enc s
        else read_ident fuel c s
    else if c = 117 then do
      let (b, s) ← next fuel 34 s
      if b then read_string fuel ENC_CHAR16 s
      else do
        let (b, s) ← next fuel 39 s
        if b then read_char fuel ENC_CHAR16 s
        else do
          let (b, s) ← next fuel 56 s
          if b then do
            let (b2, s) ← next fuel 34 s
            if b2 then read_string fuel ENC_UTF8 s
            else read_ident fuel c (unreadcL 56 s)
          else read_ident fuel c s
    else if c = 46 then do
      let (p, s) ← peek fuel s
      if isdigit p then read_number fuel c s
      else do
        let (b, s) ← next fuel 46 s
        if b then do
          let (b2, s) ← next fuel 46 s
          if b2 then return make_keyword KwId.ellipsis s
          else return make_ident [46, 46] s
        else return make_keyword (KwId.chr 46) s
    else if c = 40 ∨ c = 41 ∨ c = 44 ∨ c = 59 ∨ c = 91 ∨ c = 93 ∨ c = 123
        ∨ c = 125 ∨ c = 63 ∨ c = 126 then
      return make_keyword (KwId.chr c) s
    else if c = 45 then do
      let (b, s) ← next fuel 45 s
      if b then return make_keyword KwId.dec s
      else do
        let (b, s) ← next fuel 62 s
        if b then return make_keyword KwId.arrow s
        else do
          let (b, s) ← next fuel 61 s
          if b then return make_keyword KwId.a_sub s
          else return make_keyword (KwId.chr 45) s
    else if c = 60 then do
      let (b, s) ← next fuel 60 s
      if b then read_rep fuel 61 KwId.a_sal KwId.sal s
      else do
        let (b, s) ← next fuel 61 s
        if b then return make_keyword KwId.op_le s
        else do
          let (b, s) ← next fuel 58 s
          if b then return make_keyword (KwId.chr 91) s
          else do
            let (b, s) ← next fuel 37 s
            if b then return make_keyword (KwId.chr 123) s
            else return make_keyword (KwId.chr 60) s
    else if c = 62 then do
      let (b, s) ← next fuel 61 s
      if b then return make_keyword KwId.op_ge s
      else do
        let (b, s) ← next fuel 62 s
        if b then read_rep fuel 61 KwId.a_sar KwId.sar s
        else return make_keyword (KwId.chr 62) s
    else if c = 37 then do
      let (t?, s) ← read_hash_digraph fuel s
      match t? with
      | some t => return (t, s)
      | none => read_rep fuel 61 KwId.a_mod (KwId.chr 37) s
    else if c = -1 then return (eof_token, s)
    else return make_invalid c s

/-- token_buffer_stash: push a token list as the new top of the buffer
stack. -/
def token_buffer_stash (buf : List Token) (s : LexSt) : LexSt :=
  { s with buffers := buf :: s.buffers }

/-- token_buffer_unstash: pop the top token list. -/
def token_buffer_unstash (s : LexSt) : LexSt :=
  { s with buffers := s.buffers.tail }

/-- unget_token: EOF is never pushed back; anything else goes onto the top
buffer (at its popping end). -/
def unget_token (tok : Token) (s : LexSt) : LexSt :=
  if tok.kind = TokKind.TEOF then s
  else
    match s.buffers with
    | [] => s
    | b :: bs => { s with buffers := (tok :: b) :: bs }

/-- Space-skipping loop at the end of lex: while the token is the space
token, fetch the next one and flag it as preceded by space. -/
def lex_space_loop : Nat → Token → LexSt → Option (Token × LexSt)
  | 0, _, _ => none
  | fuel + 1, tok, s =>
    if tok.kind = TokKind.TSPACE then do
      let (t2, s) ← do_read_token fuel s
      lex_space_loop fuel { t2 with space := true } s
    else some (tok, s)

/-- lex(): pop the top token buffer when it has tokens; with more than one
buffer stacked and the top one exhausted, synthesize EOF without touching
the character stream; otherwise note whether the current column is 1, read
a token from the characters, collapse leading space tokens into the space
flag, and stamp the bol flag. -/
def lex (fuel : Nat) (s : LexSt) : Option (Token × LexSt) :=
  match s.buffers with
  | [] => none
  | buf :: bufs =>
    match buf with
    | t :: ts => some (t, { s with buffers := ts :: bufs })
    | [] =>
      if 0 < bufs.length then some (eof_token, s)
      else do
        let bol : Bool := current_column s = 1
        let (tok, s) ← do_read_token fuel s
        let (tok, s) ← lex_space_loop fuel tok s
        return ({ tok with bol := bol }, s)

/-- is_keyword (from the sources): a keyword token with the given id. -/
def is_keyword (tok : Token) (c : KwId) : Bool :=
  tok.kind = TokKind.TKEYWORD ∧ tok.id = c

/-- Modelled from the spec: is_ident lives in the preprocessor (not among
the sources); it tests whether a token is an identifier with the given
name. -/
def is_ident (tok : Token) (sv : List Int) : Bool :=
  tok.kind = TokKind.TIDENT ∧ tok.sval = sv

/-- Byte list of the directive name if. -/
def kw_if : List Int := [105, 102]
/-- Byte list of the directive name ifdef. -/
def kw_ifdef : List Int := [105, 102, 100, 101, 102]
/-- Byte list of the directive name ifndef. -/
def kw_ifndef : List Int := [105, 102, 110, 100, 101, 102]
/-- Byte list of the directive name else. -/
def kw_else : List Int := [101, 108, 115, 101]
/-- Byte list of the directive name elif. -/
def kw_elif : List Int := [101, 108, 105, 102]
/-- Byte list of the directive name endif. -/
def kw_endif : List Int := [101, 110, 100, 105, 102]

/-- Loop of skip_cond_incl with the nesting counter.  Each iteration records
whether the line position is at column 1, skips spaces, reads one character;
EOF returns, a quote skips the literal, and a hash at the beginning of a
line lexes one token: an else/elif/endif identifier at nesting zero is
pushed back together with a synthesized hash keyword flagged bol (carrying
the column of the hash character), if/ifdef/ifndef deepen the nesting,
endif at positive nesting closes one level, and the rest of a directive
line is skipped. -/
def skip_cond_incl_loop : Nat → Nat → LexSt → Option LexSt
  | 0, _, _ => none
  | fuel + 1, nest, s => do
    let bol : Bool := current_column s = 1
    let (_, s) ← skip_space fuel s
    let (c, s) ← readcL fuel s
    if c = -1 then return s
    else if c = 39 then do
      let s ← skip_char fuel s
      skip_cond_incl_loop fuel nest s
    else if c = 34 then do
      let s ← skip_string fuel s
      skip_cond_incl_loop fuel nest s
    else if c ≠ 35 ∨ !bol then skip_cond_incl_loop fuel nest s
    else do
      let column := current_column s - 1
      let (tok, s) ← lex fuel s
      if tok.kind ≠ TokKind.TIDENT then skip_cond_incl_loop fuel nest s
      else if nest = 0 ∧ (is_ident tok kw_else ∨ is_ident tok kw_elif ∨ is_ident tok kw_endif) then do
        let s := unget_token tok s
        let (hash, s) := make_keyword (KwId.chr 35) s
        let hash := { hash with bol := true, column := column }
        return unget_token hash s
      else do
        let nest2 :=
          if is_ident tok kw_if ∨ is_ident tok kw_ifdef ∨ is_ident tok kw_ifndef then nest + 1
          else if nest ≠ 0 ∧ is_ident tok kw_endif then nest - 1
          else nest
        let s ← skip_line fuel s
        skip_cond_incl_loop fuel nest2 s

/-- skip_cond_incl entry: nesting starts at zero. -/
def skip_cond_incl (fuel : Nat) (s : LexSt) : Option LexSt :=
  skip_cond_incl_loop fuel 0 s

/-- Fresh lexer state over one string-backed file, as built by lex_init
followed by stream_push: one empty token buffer, the static mark position
still zeroed. -/
def lex_init_string (bs : List Nat) : LexSt :=
  { files := [make_file_string bs], buffers := [[]] }

/-- Repeatedly call lex, collecting tokens up to and including the first
EOF token; the first argument bounds the number of tokens. -/
def drain_lex : Nat → Nat → LexSt → Option (List Token)
  | 0, _, _ => none
  | n + 1, fuel, s => do
    let (tok, s) ← lex fuel s
    if tok.kind = TokKind.TEOF then return [tok]
    else do
      let rest ← drain_lex n fuel s
      return tok :: rest

/-- Observable face of a token, used to state the concrete scenarios. -/
structure TokView where
  kind : TokKind
  sval : List Int
  id : KwId
  bol : Bool
  space : Bool
  line : Int
  column : Int
  deriving DecidableEq, Repr

/-- Project a token onto its observable face. -/
def Token.view (t : Token) : TokView :=
  { kind := t.kind, sval := t.sval, id := t.id, bol := t.bol, space := t.space,
    line := t.line, column := t.column }

/-! ## Escape helpers of buffer.c (quote, print, quote_cstring)

These functions walk C strings as plain char values.  The model fixes plain
char to be unsigned, so a string is a list of bytes 0..255 — the same byte
values the readers deliver.  (The C standard leaves the signedness of char
to the implementation; on a target with signed char, bytes above 0x7F would
reach printf as negative ints and the percent-02x conversion would render
their sign-extended 32-bit value instead of two digits.) -/

/-- quote: the escape table.  Returns the replacement string for the seven
specially quoted characters and none for everything else. -/
def quote (c : Nat) : Option (List Nat) :=
  if c = 34 then some [92, 34]
  else if c = 92 then some [92, 92]
  else if c = 8 then some [92, 98]
  else if c = 12 then some [92, 102]
  else if c = 10 then some [92, 110]
  else if c = 13 then some [92, 114]
  else if c = 9 then some [92, 116]
  else none

/-- Lowercase hex digit, as printed by the percent-x conversion. -/
def hex_digit (n : Nat) : Nat := if n < 10 then 48 + n else 87 + n

/-- print: append one character to the buffer — its escape if the quote
table has one, the character itself if printable, and otherwise a
backslash-x followed by the two lowercase hex digits of its value
(percent-02x). -/
def print (c : Nat) : List Nat :=
  match quote c with
  | some q => q
  | none =>
    if 32 ≤ c ∧ c ≤ 126 then [c]
    else [92, 120, hex_digit (c / 16), hex_digit (c % 16)]

/-- quote_cstring: print every character of the NUL-terminated string; the
loop stops at the first NUL byte. -/
def quote_cstring (bs : List Nat) : List Nat :=
  ((bs.takeWhile (fun b => b ≠ 0)).map print).flatten

/-- quote_cstring_len: print exactly len characters, NUL bytes included. -/
def quote_cstring_len (bs : List Nat) (len : Nat) : List Nat :=
  ((bs.take len).map print).flatten

/-- quote_char: escape backslash and single quote; anything else is printed
raw by format percent-c. -/
def quote_char (c : Nat) : List Nat :=
  if c = 92 then [92, 92]
  else if c = 39 then [92, 39]
  else [c]

/-! ## Claim-side definitions

These definitions transcribe the words of individual claims (not the code)
and exist only to be compared against the embedded functions above. -/

/-- Rendering function transcribed from the words of claim C9: the seven
named characters map to their two-character escapes, every other printable
ASCII byte is emitted unchanged, and every other byte becomes the
four-character sequence backslash-x-H-H with the two hex digits of the
byte. -/
def c9_render (b : Nat) : List Nat :=
  let escapes : List (Nat × List Nat) :=
    [(34, [92, 34]), (92, [92, 92]), (8, [92, 98]), (12, [92, 102]),
     (10, [92, 110]), (13, [92, 114]), (9, [92, 116])]
  match escapes.lookup b with
  | some e => e
  | none =>
    if 32 ≤ b ∧ b ≤ 126 then [b]
    else [92, 120, hex_digit (b / 16), hex_digit (b % 16)]

/-- Character-class test transcribed from the words of claim C8: digits,
letters, periods always continue a pp-number; a plus or minus sign does so
exactly when the immediately preceding consumed character is e, E, p or
P. -/
def pp_num_char (last c : Int) : Bool :=
  isdigit c || isalpha c || c = 46 ||
    ((last = 101 || last = 69 || last = 112 || last = 80) && (c = 43 || c = 45))

/-- Maximal pp-number continuation transcribed from claim C8: consume the
longest prefix of characters passing pp_num_char, tracking the previous
character. -/
def pp_tail (last : Int) : List Int → List Int
  | [] => []
  | c :: cs => if pp_num_char last c then c :: pp_tail c cs else []

/-- A probe position at which map_put stops: an empty slot, a tombstone, or
a live slot keyed k. -/
def put_stop (m : HMap) (k : Key) (p : Nat) : Prop :=
  m.slots.getD p Slot.empty = Slot.empty ∨ m.slots.getD p Slot.empty = Slot.tomb ∨
    ∃ v2, m.slots.getD p Slot.empty = Slot.live k v2

/-! ## Concrete scenario states -/

/-- Byte content remaining after the preprocessor has consumed the line
"#if 0" of the C7 scenario: foo NL #if 1 NL bar NL #endif NL #endif NL. -/
def c7_bytes : List Nat :=
  [102, 111, 111, 10, 35, 105, 102, 32, 49, 10, 98, 97, 114, 10,
   35, 101, 110, 100, 105, 102, 10, 35, 101, 110, 100, 105, 102, 10]

/-- Lexer state at the entry of skip_cond_incl in the C7 scenario: the
stream stands at the beginning of line 2, right after the newline of the
"#if 0" line. -/
def c7_entry : LexSt :=
  { files := [{ backing := Backing.str c7_bytes, line := 2, column := 1, last := 10 }],
    buffers := [[]] }

/-- Byte content for the else variant of the C7 scenario:
junk NL #else SP x NL rest NL. -/
def c7_else_bytes : List Nat :=
  [106, 117, 110, 107, 10, 35, 101, 108, 115, 101, 32, 120, 10,
   114, 101, 115, 116, 10]

/-- Lexer state at the entry of skip_cond_incl in the else variant. -/
def c7_else_entry : LexSt :=
  { files := [{ backing := Backing.str c7_else_bytes }], buffers := [[]] }

/-- Plain byte content: nonzero bytes below 256 that are neither CR nor
backslash, so that the readc pipeline delivers them one for one. -/
def plain_bytes (cs : List Nat) : Prop :=
  ∀ b ∈ cs, 0 < b ∧ b < 256 ∧ b ≠ 13 ∧ b ≠ 92

/-- Data invariant of the pushback buffers: unreadc refuses EOF, so no
pushback buffer ever holds -1. -/
def buf_ok (fs : Files) : Prop :=
  ∀ f ∈ fs, (-1 : Int) ∉ f.buf


/-- Byte values of a list as int characters (the claim-side statements about
pp-number spellings use this to compare token payloads against input
bytes). -/
def int_bytes (cs : List Nat) : List Int := cs.map (fun n : Nat => (n : Int))

/-! # Theorems -/

/-- Claim C1 (code_bug): the claim states that after map_remove(k) a lookup
of k yields a miss or the parent binding, regardless of tombstones left by
earlier removals of other keys.  The code violates this: map_put installs a
binding into the first tombstoned slot of the probe chain without checking
whether the key is live further along the chain, so a put that reuses a
tombstone can leave two live slots for the same key, and a single
map_remove tombstones only the first of them.  The keys "a" (byte 97) and
"q" (byte 113) both have home slot 12 in a 16-slot table; after put(a,1),
put(q,2), remove(a), put(q,3), remove(q) on a fresh parentless map, the
lookup of "q" still returns the value 2 installed by an earlier put instead
of a miss, and map_len reports one live element. -/
theorem c1_map_remove_leaves_stale_binding :
    map_get [c1_final] keyQ = some 2 ∧ map_len c1_final = 1 ∧
    probe_home 16 keyA = 12 ∧ probe_home 16 keyQ = 12 := by
  decide

/-- Claim C2: whenever the token buffer stack holds more than one list and
the top list is exhausted, lex returns the EOF token and leaves the state —
in particular the character stream — untouched; while the top list is
non-empty, lex pops and returns its top element, again without touching the
characters.  Both facts are stated directly and again through
token_buffer_stash, which is how the preprocessor builds such states. -/
theorem c2_token_buffer_stack_isolates_stream (fuel : Nat) (s : LexSt)
    (t : Token) (ts : List Token) :
    (s.buffers.head? = some (t :: ts) →
      lex fuel s = some (t, { s with buffers := ts :: s.buffers.tail })) ∧
    (s.buffers.head? = some [] → s.buffers.tail ≠ [] →
      lex fuel s = some (eof_token, s)) ∧
    (lex fuel (token_buffer_stash (t :: ts) s) =
      some (t, { s with buffers := ts :: s.buffers })) ∧
    (s.buffers ≠ [] →
      lex fuel (token_buffer_stash [] s) =
        some (eof_token, token_buffer_stash [] s)) := by
  refine ⟨?_, ?_, ?_, ?_⟩
  · intro h
    cases hb : s.buffers with
    | nil => simp [hb] at h
    | cons b bs =>
      rw [hb] at h
      simp at h
      subst h
      simp [lex, hb]
  · intro h h2
    cases hb : s.buffers with
    | nil => simp [hb] at h
    | cons b bs =>
      rw [hb] at h
      simp at h
      subst h
      rw [hb] at h2
      simp at h2
      have : 0 < bs.length := List.length_pos.mpr h2
      simp [lex, hb, this]
  · simp [lex, token_buffer_stash]
  · intro h
    have : 0 < s.buffers.length := List.length_pos.mpr h
    simp [lex, token_buffer_stash, this]

/-- Witness for C2 at a concrete state: a stashed two-token list is popped
top first, and a stashed empty list makes lex yield EOF with the state
unchanged. -/
theorem c2_witness :
    (({ files := [make_file_string [120]], buffers := [[]] } : LexSt).buffers ≠ [] →
      lex 5 (token_buffer_stash [] { files := [make_file_string [120]], buffers := [[]] }) =
        some (eof_token, token_buffer_stash [] { files := [make_file_string [120]], buffers := [[]] })) ∧
    lex 5 (token_buffer_stash [space_token, eof_token] { files := [make_file_string [120]], buffers := [[]] }) =
      some (space_token, { files := [make_file_string [120]], buffers := [[eof_token], []] }) := by
  refine ⟨fun h => (c2_token_buffer_stack_isolates_stream 5 _ space_token [eof_token]).2.2.2 h, ?_⟩
  exact (c2_token_buffer_stack_isolates_stream 5
    { files := [make_file_string [120]], buffers := [[]] } space_token [eof_token]).2.2.1

/-- Claim C6, counterexample: lexing the input SPACE a NEWLINE from a fresh
stream produces IDENT a with bol = true, although the position immediately
before the lexer read the first non-space byte of the token was column 2,
not column 1 (the second conjunct runs skip_space on the same state and
reads off the column; the token itself records that position, stamped by
mark, as its column field).  The claimed equivalence of bol with that
position being column 1 therefore fails; the code instead samples the
column when lex is entered, before any spaces are skipped. -/
theorem c6_counterexample :
    (lex 50 (lex_init_string [32, 97, 10])).map (fun p => p.1.view) =
      some { kind := TokKind.TIDENT, sval := [97], id := KwId.chr 0, bol := true,
             space := true, line := 1, column := 2 } ∧
    (skip_space 50 (lex_init_string [32, 97, 10])).map (fun p => (p.1, current_column p.2)) =
      some (true, 2) := by
  constructor
  · rfl
  · rfl

/-- Claim C6 as amended: for a token read from the character stream (the
token buffer stack holding exactly one, empty, list), bol is true exactly
when the column of the current file was 1 at the moment lex was entered,
before any whitespace or comments were skipped; a token whose lex call
began anywhere else in a line gets bol = false even when whitespace or
comments separate it from the line start. -/
theorem c6_bol_sampled_at_lex_entry (fuel : Nat) (s : LexSt) (t : Token) (s2 : LexSt)
    (hbuf : s.buffers = [[]]) (h : lex fuel s = some (t, s2)) :
    (t.bol = true) ↔ current_column s = 1 := by
  rw [lex, hbuf] at h
  simp at h
  cases hd : do_read_token fuel s with
  | none => rw [hd] at h; simp at h
  | some p =>
    obtain ⟨tok1, s1⟩ := p
    rw [hd] at h
    simp only [Option.some_bind] at h
    cases hl : lex_space_loop fuel tok1 s1 with
    | none => rw [hl] at h; simp at h
    | some q =>
      obtain ⟨tok2, s3⟩ := q
      rw [hl] at h
      simp at h
      obtain ⟨ht, _⟩ := h
      subst ht
      simp

/-- Witness for the amended C6 theorem: lexing b NEWLINE from column 1
yields bol = true, and the hypotheses of the theorem hold at that state. -/
theorem c6_witness :
    ∃ t s2, lex 50 (lex_init_string [98, 10]) = some (t, s2) ∧
      ((t.bol = true) ↔ current_column (lex_init_string [98, 10]) = 1) := by
  refine ⟨_, _, rfl, ?_⟩
  exact c6_bol_sampled_at_lex_entry 50 (lex_init_string [98, 10]) _ _ rfl rfl

/-- Claim C3: a backslash immediately followed by a newline is invisible to
readc — both characters are consumed, the line counter advances and the
column restarts, and readc goes on to deliver the character after the pair
(first conjunct, stated on any string-backed stream state with an empty
pushback buffer).  Consequently the input a backslash NEWLINE b NEWLINE
lexes to IDENT ab positioned at line 1, column 1 with bol = true, then
NEWLINE, then EOF (second conjunct). -/
theorem c3_line_splicing :
    (∀ (n : Nat) (f : File8) (rest : Files) (p : List Nat),
        f.buf = [] → f.backing = Backing.str (92 :: 10 :: p) →
        readc (n + 1) (f :: rest) =
          readc n
            ({ f with
                backing := Backing.str p, line := f.line + 1,
                column := 1, last := 10 } :: rest)) ∧
    (drain_lex 5 60 (lex_init_string [97, 92, 10, 98, 10])).map (List.map Token.view) =
      some [{ kind := TokKind.TIDENT, sval := [97, 98], id := KwId.chr 0, bol := true,
              space := false, line := 1, column := 1 },
            { kind := TokKind.TNEWLINE, sval := [], id := KwId.chr 0, bol := true,
              space := false, line := 0, column := 0 },
            { kind := TokKind.TEOF, sval := [], id := KwId.chr 0, bol := true,
              space := false, line := 0, column := 0 }] := by
  constructor
  · intro n f rest p hb hs
    cases f
    simp only at hb hs
    subst hb hs
    simp [readc, get, readc_backing, readc_string, get_advance]
  · rfl

/-- Witness for C3 at a concrete state: splicing consumes the backslash and
newline of the stream backslash NEWLINE x and continues with x. -/
theorem c3_witness :
    readc 2 [{ backing := Backing.str [92, 10, 120] }] =
      readc 1 [{ backing := Backing.str [120], line := 2, column := 1, last := 10 }] :=
  c3_line_splicing.1 1 { backing := Backing.str [92, 10, 120] } [] [120] rfl rfl

/-- Claim C7: skip_cond_incl maintains a nesting counter — if, ifdef and
ifndef directives raise it, endif at positive nesting lowers it — and on
else, elif or endif at nesting zero it pushes the directive identifier and
a synthesized hash keyword flagged bol back onto the token buffer and
returns, so the next two lex calls yield the hash and then the identifier.
First conjunct: entered right after the line "#if 0", the stream foo NL
"#if 1" NL bar NL #endif NL #endif NL is consumed through the matching
outer #endif, the next lex calls return exactly the hash keyword (bol =
true, column 1 of line 6) and IDENT endif followed by the remaining NEWLINE
and EOF, and neither foo nor bar is ever produced as a token.  Second
conjunct: the else variant junk NL "#else x" NL returns at the #else at
nesting zero, the next two lex calls yielding the hash and IDENT else. -/
theorem c7_skip_cond_incl_scenarios :
    ((skip_cond_incl 200 c7_entry).bind (fun s => drain_lex 10 200 s)).map (List.map Token.view) =
      some [{ kind := TokKind.TKEYWORD, sval := [], id := KwId.chr 35, bol := true,
              space := false, line := 6, column := 1 },
            { kind := TokKind.TIDENT, sval := kw_endif, id := KwId.chr 0, bol := false,
              space := false, line := 6, column := 2 },
            { kind := TokKind.TNEWLINE, sval := [], id := KwId.chr 0, bol := true,
              space := false, line := 0, column := 0 },
            { kind := TokKind.TEOF, sval := [], id := KwId.chr 0, bol := true,
              space := false, line := 0, column := 0 }] ∧
    ((skip_cond_incl 200 c7_else_entry).bind (fun s => do
        let (t1, s) ← lex 200 s
        let (t2, _) ← lex 200 s
        pure (t1.view, t2.view))) =
      some ({ kind := TokKind.TKEYWORD, sval := [], id := KwId.chr 35, bol := true,
              space := false, line := 2, column := 1 },
            { kind := TokKind.TIDENT, sval := kw_else, id := KwId.chr 0, bol := false,
              space := false, line := 2, column := 2 }) := by
  constructor
  · rfl
  · rfl

/-- Claim C9: per byte, the escape rendering of print (hence of
quote_cstring and quote_cstring_len) is exactly the mapping the claim
spells out — the seven named characters give two-character escapes, other
printable ASCII bytes pass through, and every other byte becomes
backslash-x and two hex digits (first conjunct, checked for all 256 byte
values against the transcription c9_render of the claim text).
quote_cstring renders every byte of a NUL-free string this way, and
quote_cstring_len renders exactly the first len bytes, NUL bytes included
(remaining conjuncts). -/
theorem c9_quote_cstring_escape_mapping :
    (∀ b : Nat, b < 256 → print b = c9_render b) ∧
    (∀ bs : List Nat, (∀ b ∈ bs, 0 < b ∧ b < 256) →
      quote_cstring bs = (bs.map c9_render).flatten) ∧
    (∀ (bs : List Nat) (len : Nat), (∀ b ∈ bs, b < 256) →
      quote_cstring_len bs len = ((bs.take len).map c9_render).flatten) := by
  have hpr : ∀ b : Nat, b < 256 → print b = c9_render b := by decide
  refine ⟨hpr, ?_, ?_⟩
  · intro bs h
    unfold quote_cstring
    have hself : bs.takeWhile (fun b => b ≠ 0) = bs := by
      rw [List.takeWhile_eq_self_iff]
      intro b hb
      have := (h b hb).1
      simp
      omega
    rw [hself]
    congr 1
    apply List.map_congr_left
    intro b hb
    exact hpr b (h b hb).2
  · intro bs len h
    unfold quote_cstring_len
    congr 1
    apply List.map_congr_left
    intro b hb
    exact hpr b (h b (List.mem_of_mem_take hb))

/-- Witness for C9 at concrete bytes: a byte above 0x7F renders as
backslash-x and two hex digits, and concrete strings render bytewise. -/
theorem c9_witness :
    print 200 = c9_render 200 ∧
    quote_cstring [34, 97, 200] = ([34, 97, 200].map c9_render).flatten ∧
    quote_cstring_len [0, 97] 2 = (([0, 97].take 2).map c9_render).flatten :=
  ⟨c9_quote_cstring_escape_mapping.1 200 (by decide),
   c9_quote_cstring_escape_mapping.2.1 [34, 97, 200] (by decide),
   c9_quote_cstring_escape_mapping.2.2 [0, 97] 2 (by decide)⟩

/-! ## Lemmas and the claim C4 theorem: the reader-level character sequence -/


theorem crlf_cr_lf (r2 : List Nat) : crlf (13 :: 10 :: r2) = 10 :: crlf r2 := by
  rw [crlf]; simp

theorem crlf_cr (r : Nat) (r2 : List Nat) (hr : r ≠ 10) :
    crlf (13 :: r :: r2) = 10 :: crlf (r :: r2) := by
  rw [crlf]; simp [hr]

theorem crlf_cr_nil : crlf [13] = [10] := by
  rw [crlf]; simp [crlf]

theorem crlf_plain (b : Nat) (rest : List Nat) (h13 : b ≠ 13) :
    crlf (b :: rest) = (b : Int) :: crlf rest := by
  rw [crlf]; simp [h13]

theorem crlf_ne_nil (p : List Nat) (h : p ≠ []) : crlf p ≠ [] := by
  cases p with
  | nil => exact absurd rfl h
  | cons b rest =>
    rw [crlf]
    split
    · simp
    · simp

theorem ends_nl_cons (c : Int) (l : List Int) (h : l ≠ []) :
    ends_nl (c :: l) = ends_nl l := by
  cases l with
  | nil => exact absurd rfl h
  | cons d ds => rfl

theorem drain_string_succ (fuel : Nat) (f f2 : File8) (c : Int)
    (h : readc_string f = (c, f2)) :
    drain_string (fuel + 1) f = if c = -1 then [] else c :: drain_string fuel f2 := by
  rw [drain_string, h]

theorem readc_string_nil_end (f : File8) (hb : f.backing = Backing.str [])
    (hl : f.last = 10 ∨ f.last = -1) : readc_string f = (-1, { f with last := -1 }) := by
  rw [readc_string, hb]; simp [hl]

theorem readc_string_nil_syn (f : File8) (hb : f.backing = Backing.str [])
    (hl : ¬ (f.last = 10 ∨ f.last = -1)) : readc_string f = (10, { f with last := 10 }) := by
  rw [readc_string, hb]; simp [hl]

theorem readc_string_cr_lf (f : File8) (r2 : List Nat)
    (hb : f.backing = Backing.str (13 :: 10 :: r2)) :
    readc_string f = (10, { f with backing := Backing.str r2, last := 10 }) := by
  rw [readc_string, hb]; simp

theorem readc_string_cr (f : File8) (r : Nat) (r2 : List Nat) (hr : r ≠ 10)
    (hb : f.backing = Backing.str (13 :: r :: r2)) :
    readc_string f = (10, { f with backing := Backing.str (r :: r2), last := 10 }) := by
  rw [readc_string, hb]; simp [hr]

theorem readc_string_cr_nil (f : File8) (hb : f.backing = Backing.str [13]) :
    readc_string f = (10, { f with backing := Backing.str [], last := 10 }) := by
  rw [readc_string, hb]; simp

theorem readc_string_plain (f : File8) (b : Nat) (rest : List Nat)
    (h0 : b ≠ 0) (h13 : b ≠ 13) (hb : f.backing = Backing.str (b :: rest)) :
    readc_string f = ((b : Int), { f with backing := Backing.str rest, last := (b : Int) }) := by
  rw [readc_string, hb]; simp [h0, h13]

theorem drain_string_spec : ∀ (fuel : Nat) (p : List Nat) (f : File8),
    f.backing = Backing.str p → 0 ∉ p → p.length + 2 ≤ fuel →
    drain_string fuel f =
      crlf p ++ (if p = [] ∧ (f.last = 10 ∨ f.last = -1) then []
                 else if ends_nl (crlf p) then [] else [10]) := by
  intro fuel
  induction fuel with
  | zero => intro p f _ _ hle; omega
  | succ fuel ih =>
    intro p f hb h0 hle
    cases p with
    | nil =>
      by_cases hl : f.last = 10 ∨ f.last = -1
      · rw [drain_string_succ fuel f _ _ (readc_string_nil_end f hb hl)]
        simp [crlf, hl]
      · rw [drain_string_succ fuel f _ _ (readc_string_nil_syn f hb hl)]
        obtain ⟨n, rfl⟩ : ∃ n, fuel = n + 1 := ⟨fuel - 1, by omega⟩
        rw [drain_string_succ n { f with last := 10 } _ _
          (readc_string_nil_end { f with last := 10 } hb (Or.inl rfl))]
        simp [crlf, hl, ends_nl]
    | cons b rest =>
      have hb0 : b ≠ 0 := fun h => h0 (h ▸ List.mem_cons_self b rest)
      have h0r : 0 ∉ rest := fun h => h0 (List.mem_cons_of_mem b h)
      have hlen : rest.length + 1 + 2 ≤ fuel + 1 := by
        simpa using hle
      by_cases h13 : b = 13
      · subst h13
        cases rest with
        | nil =>
          rw [drain_string_succ fuel f _ _ (readc_string_cr_nil f hb)]
          obtain ⟨n, rfl⟩ : ∃ n, fuel = n + 1 := ⟨fuel - 1, by simp at hlen; omega⟩
          rw [drain_string_succ n { f with backing := Backing.str [], last := 10 } _ _
            (readc_string_nil_end { f with backing := Backing.str [], last := 10 } rfl (Or.inl rfl))]
          rw [crlf_cr_nil]
          simp [ends_nl]
        | cons r r2 =>
          have hlen2 : r2.length + 2 ≤ fuel := by simp at hlen; omega
          by_cases hr : r = 10
          · subst hr
            rw [drain_string_succ fuel f _ _ (readc_string_cr_lf f r2 hb)]
            have h0r2 : 0 ∉ r2 := fun h => h0r (List.mem_cons_of_mem 10 h)
            rw [ih r2 { f with backing := Backing.str r2, last := 10 } rfl h0r2 (by omega)]
            rw [crlf_cr_lf]
            cases r2 with
            | nil => simp [crlf, ends_nl]
            | cons x xs =>
              have hcne : crlf (x :: xs) ≠ [] := crlf_ne_nil _ (by simp)
              rw [ends_nl_cons 10 (crlf (x :: xs)) hcne]
              simp
          · rw [drain_string_succ fuel f _ _ (readc_string_cr f r r2 hr hb)]
            rw [ih (r :: r2) { f with backing := Backing.str (r :: r2), last := 10 } rfl h0r (by simp at hlen ⊢; omega)]
            rw [crlf_cr r r2 hr]
            have hcne : crlf (r :: r2) ≠ [] := crlf_ne_nil _ (by simp)
            rw [ends_nl_cons 10 (crlf (r :: r2)) hcne]
            simp
      · rw [drain_string_succ fuel f _ _ (readc_string_plain f b rest hb0 h13 hb)]
        have hbm1 : ¬ ((b : Int) = -1) := by omega
        rw [if_neg hbm1]
        rw [ih rest { f with backing := Backing.str rest, last := (b : Int) } rfl h0r (by omega)]
        rw [crlf_plain b rest h13]
        cases rest with
        | nil =>
          by_cases hb10 : b = 10
          · subst hb10
            simp [crlf, ends_nl]
          · have hb10i : ¬ ((b : Int) = 10) := by omega
            simp [crlf, ends_nl, hb10i]
        | cons x xs =>
          have hcne : crlf (x :: xs) ≠ [] := crlf_ne_nil _ (by simp)
          rw [ends_nl_cons (b : Int) (crlf (x :: xs)) hcne]
          simp

theorem drain_file_eq_string : ∀ (fuel : Nat) (bs : List Nat) (line col last : Int)
    (buf : List Int) (ntok : Nat), 0 ∉ bs →
    drain_file fuel ⟨Backing.fio bs, line, col, last, buf, ntok⟩ =
      drain_string fuel ⟨Backing.str bs, line, col, last, buf, ntok⟩ := by
  intro fuel
  induction fuel with
  | zero => intro bs _ _ _ _ _ _; rfl
  | succ fuel ih =>
    intro bs line col last buf ntok h0
    cases bs with
    | nil =>
      by_cases hl : last = 10 ∨ last = -1
      · simp [drain_file, drain_string, readc_file, readc_string, hl]
      · simp [drain_file, drain_string, readc_file, readc_string, hl]
        exact ih [] line col 10 buf ntok h0
    | cons b rest =>
      have hb0 : b ≠ 0 := fun h => h0 (h ▸ List.mem_cons_self b rest)
      have h0r : 0 ∉ rest := fun h => h0 (List.mem_cons_of_mem b h)
      by_cases h13 : b = 13
      · subst h13
        cases rest with
        | nil =>
          simp [drain_file, drain_string, readc_file, readc_string]
          exact ih [] line col 10 buf ntok (by simp)
        | cons r r2 =>
          by_cases hr : r = 10
          · subst hr
            simp [drain_file, drain_string, readc_file, readc_string]
            exact ih r2 line col 10 buf ntok (fun h => h0r (List.mem_cons_of_mem 10 h))
          · simp [drain_file, drain_string, readc_file, readc_string, hr]
            exact ih (r :: r2) line col 10 buf ntok h0r
      · have hbm1 : ¬ ((b : Int) = -1) := by omega
        simp [drain_file, drain_string, readc_file, readc_string, hb0, h13, hbm1]
        exact ih rest line col (b : Int) buf ntok h0r

theorem crlf_no_cr (p : List Nat) : (13 : Int) ∉ crlf p := by
  induction p using crlf.induct with
  | case1 => simp [crlf]
  | case2 rest ih =>
    rw [crlf]
    simp
    exact ih
  | case3 b rest hb ih =>
    rw [crlf]
    simp [hb]
    refine ⟨by omega, ih⟩


/-- Claim C4: for every input byte sequence (the NUL-free bytes of a string
buffer, or the same bytes behind a stdio stream), the characters delivered
by the reader before EOF are exactly the CRLF-canonicalized input — so no
delivered character is ever CR — followed by one synthetic newline exactly
when the canonicalized input does not already end in one (in particular a
trailing lone CR becomes the final newline and nothing is appended after
it); the delivered sequence is never empty and always ends in exactly one
final newline.  Stated for readc_string and for readc_file. -/
theorem c4_reader_crlf_and_final_newline (bs : List Nat) (h0 : 0 ∉ bs) :
    drain_string (bs.length + 2) (make_file_string bs) =
      crlf bs ++ (if ends_nl (crlf bs) then [] else [10]) ∧
    drain_file (bs.length + 2) (make_file bs) =
      crlf bs ++ (if ends_nl (crlf bs) then [] else [10]) ∧
    (13 : Int) ∉ drain_string (bs.length + 2) (make_file_string bs) ∧
    (drain_string (bs.length + 2) (make_file_string bs)).getLast? = some (10 : Int) := by
  have hs : drain_string (bs.length + 2) (make_file_string bs) =
      crlf bs ++ (if ends_nl (crlf bs) then [] else [10]) := by
    rw [drain_string_spec (bs.length + 2) bs (make_file_string bs) rfl h0 (by omega)]
    congr 1
    simp [make_file_string]
  refine ⟨hs, ?_, ?_, ?_⟩
  · exact (drain_file_eq_string (bs.length + 2) bs 1 1 0 [] 0 h0).trans hs
  · rw [hs]
    intro hmem
    rcases List.mem_append.mp hmem with h | h
    · exact crlf_no_cr bs h
    · by_cases he : ends_nl (crlf bs) <;> simp [he] at h
  · rw [hs]
    by_cases he : ends_nl (crlf bs)
    · simp only [he, if_true, List.append_nil]
      simpa [ends_nl] using he
    · simp only [he, if_false]
      exact List.getLast?_concat _

/-- Witness for C4 at the spec scenario bytes x CR LF y CR: the delivered
sequence is x LF y LF with no additional newline appended. -/
theorem c4_witness :
    drain_string ([120, 13, 10, 121, 13].length + 2) (make_file_string [120, 13, 10, 121, 13]) =
      crlf [120, 13, 10, 121, 13] ++
        (if ends_nl (crlf [120, 13, 10, 121, 13]) then [] else [10]) ∧
    drain_file ([120, 13, 10, 121, 13].length + 2) (make_file [120, 13, 10, 121, 13]) =
      crlf [120, 13, 10, 121, 13] ++
        (if ends_nl (crlf [120, 13, 10, 121, 13]) then [] else [10]) ∧
    (13 : Int) ∉ drain_string ([120, 13, 10, 121, 13].length + 2)
        (make_file_string [120, 13, 10, 121, 13]) ∧
    (drain_string ([120, 13, 10, 121, 13].length + 2)
        (make_file_string [120, 13, 10, 121, 13])).getLast? = some (10 : Int) :=
  c4_reader_crlf_and_final_newline [120, 13, 10, 121, 13] (by decide)

/-! ## Lemmas and the claim C5 theorem: the unreadc round trip -/

theorem unreadc_eof (fs : Files) : unreadc (-1) fs = fs := by
  simp [unreadc]

theorem get_ne_nil (s : Files) (c : Int) (fs : Files) (hg : get s = (c, fs))
    (hc : c ≠ -1) : s ≠ [] ∧ fs ≠ [] := by
  cases s with
  | nil => simp [get] at hg; exact absurd hg.1.symm hc
  | cons f rest =>
    constructor
    · simp
    · rw [get] at hg
      cases hbuf : f.buf with
      | nil => rw [hbuf] at hg; simp at hg; simp [← hg.2]
      | cons x bs => rw [hbuf] at hg; simp at hg; simp [← hg.2]

theorem get_col_one (s : Files) (fs : Files) (hg : get s = (10, fs)) :
    ∃ g rest, fs = g :: rest ∧ g.column = 1 := by
  cases s with
  | nil => simp [get] at hg
  | cons f rest =>
    rw [get] at hg
    cases hbuf : f.buf with
    | nil =>
      rw [hbuf] at hg
      simp at hg
      refine ⟨_, rest, hg.2.symm, ?_⟩
      simp [get_advance, hg.1]
    | cons x bs =>
      rw [hbuf] at hg
      simp at hg
      refine ⟨_, rest, hg.2.symm, ?_⟩
      simp [get_advance, hg.1]

theorem get_unreadc (c : Int) (f : File8) (rest : Files) (hc : c ≠ -1)
    (hcol : c = 10 → f.column = 1) :
    get (unreadc c (f :: rest)) = (c, f :: rest) := by
  by_cases h10 : c = 10
  · subst h10
    have h1 : f.column = 1 := hcol rfl
    rw [unreadc]
    simp [get, get_advance]
    cases f
    simp at h1 ⊢
    omega
  · rw [unreadc]
    simp [hc, h10, get, get_advance]


theorem buf_ok_tail (fs : Files) (h : buf_ok fs) : buf_ok fs.tail := by
  intro f hf
  exact h f (List.mem_of_mem_tail hf)

theorem buf_ok_get (s : Files) (h : buf_ok s) : buf_ok (get s).2 := by
  cases s with
  | nil => simpa [get] using h
  | cons f rest =>
    rw [get]
    cases hbuf : f.buf with
    | nil =>
      intro g hg
      simp at hg
      rcases hg with hg | hg
      · subst hg
        have : (readc_backing f).2.buf = f.buf := by
          rcases f with ⟨bk, l, col, la, bu, nt⟩
          cases bk with
          | str p =>
            cases p with
            | nil => simp [readc_backing, readc_string]
            | cons b r =>
              simp only [readc_backing, readc_string]
              split
              · simp
              · split
                · split
                  · simp
                  · simp
                · simp
          | fio p =>
            cases p with
            | nil => simp [readc_backing, readc_file]
            | cons b r =>
              simp only [readc_backing, readc_file]
              split
              · split
                · simp
                · simp
              · simp
        have hb2 : (get_advance (readc_backing f).2 (readc_backing f).1).buf =
            (readc_backing f).2.buf := by
          rw [get_advance]
          split
          · simp
          · split
            · simp
            · simp
        rw [hb2, this, hbuf]
        simp
      · exact h g (List.mem_cons_of_mem f hg)
    | cons x bs =>
      intro g hg
      simp at hg
      rcases hg with hg | hg
      · subst hg
        have hb2 : (get_advance { f with buf := bs } x).buf = bs := by
          rw [get_advance]
          split
          · simp
          · split
            · simp
            · simp
        rw [hb2]
        intro hmem
        exact h f (by simp) (hbuf ▸ List.mem_cons_of_mem x hmem)
      · exact h g (List.mem_cons_of_mem f hg)

theorem buf_ok_unreadc (c : Int) (fs : Files) (hc : c ≠ -1) (h : buf_ok fs) :
    buf_ok (unreadc c fs) := by
  cases fs with
  | nil => simpa [unreadc, hc] using h
  | cons f rest =>
    rw [unreadc]
    simp [hc]
    split
    · intro g hg
      simp at hg
      rcases hg with hg | hg
      · subst hg
        simp
        constructor
        · omega
        · exact h f (by simp)
      · exact h g (List.mem_cons_of_mem f hg)
    · intro g hg
      simp at hg
      rcases hg with hg | hg
      · subst hg
        simp
        constructor
        · omega
        · exact h f (by simp)
      · exact h g (List.mem_cons_of_mem f hg)


theorem readc_backing_eof_idem (f f2 : File8) (h : readc_backing f = (-1, f2)) :
    readc_backing f2 = (-1, f2) := by
  rcases f with ⟨bk, l, col, la, bu, nt⟩
  cases bk with
  | str p =>
    cases p with
    | nil =>
      rw [readc_backing, readc_string] at h
      by_cases hl : la = 10 ∨ la = -1
      · simp only [if_pos hl] at h
        simp at h
        subst h
        simp [readc_backing, readc_string]
      · simp only [if_neg hl] at h
        simp at h
    | cons b r =>
      rw [readc_backing, readc_string] at h
      by_cases hb0 : b = 0
      · simp only [if_pos hb0] at h
        by_cases hl : la = 10 ∨ la = -1
        · simp only [if_pos hl] at h
          simp at h
          subst h
          simp [readc_backing, readc_string, hb0]
        · simp only [if_neg hl] at h
          simp at h
      · by_cases hb13 : b = 13
        · simp only [if_neg hb0, if_pos hb13] at h
          split at h
          · simp at h
          · simp at h
        · simp only [if_neg hb0, if_neg hb13] at h
          simp at h
  | fio p =>
    cases p with
    | nil =>
      rw [readc_backing, readc_file] at h
      by_cases hl : la = 10 ∨ la = -1
      · simp only [if_pos hl] at h
        simp at h
        subst h
        simp [readc_backing, readc_file]
      · simp only [if_neg hl] at h
        simp at h
    | cons b r =>
      rw [readc_backing, readc_file] at h
      by_cases hb13 : b = 13
      · simp only [if_pos hb13] at h
        split at h
        · simp at h
        · simp at h
      · simp only [if_neg hb13] at h
        simp at h

theorem get_eof_idem (s fs2 : Files) (hok : buf_ok s) (h : get s = (-1, fs2)) :
    get fs2 = (-1, fs2) := by
  cases s with
  | nil =>
    simp [get] at h
    subst h
    simp [get]
  | cons f rest =>
    rw [get] at h
    cases hbuf : f.buf with
    | cons x bs =>
      rw [hbuf] at h
      simp at h
      have hx : x ≠ -1 := fun hx => (hok f (by simp)) (hx ▸ hbuf ▸ List.mem_cons_self x bs)
      exact absurd h.1 hx
    | nil =>
      rw [hbuf] at h
      simp at h
      rcases hr : readc_backing f with ⟨c, f2⟩
      rw [hr] at h
      simp at h
      obtain ⟨rfl, hfs⟩ := h
      have hidem := readc_backing_eof_idem f f2 hr
      have hf2buf : f2.buf = [] := by
        have : (readc_backing f).2.buf = f.buf := by
          rcases f with ⟨bk, l, col, la, bu, nt⟩
          cases bk with
          | str p =>
            cases p with
            | nil => simp [readc_backing, readc_string]
            | cons b r =>
              simp only [readc_backing, readc_string]
              split
              · simp
              · split
                · split
                  · simp
                  · simp
                · simp
          | fio p =>
            cases p with
            | nil => simp [readc_backing, readc_file]
            | cons b r =>
              simp only [readc_backing, readc_file]
              split
              · split
                · simp
                · simp
              · simp
        rw [hr] at this
        simp at this
        rw [this, hbuf]
      rw [← hfs]
      rw [get]
      simp [get_advance, hf2buf, hidem]


theorem get_snd_ne_nil (f : File8) (rest : Files) : (get (f :: rest)).2 ≠ [] := by
  rw [get]
  cases hbuf : f.buf with
  | nil => simp
  | cons x bs => simp

/-- Claim C5: for every stream state satisfying the pushback data invariant
(unreadc refuses EOF, so no pushback buffer ever holds -1) and every
character c returned by readc with c different from EOF, calling unreadc(c)
and then readc again returns the same c and restores the state to exactly
what it was after the first readc — in particular the current file's line
and column are unchanged.  This holds also when c is a backslash, where the
second readc repeats the splice lookahead and puts the lookahead character
back.  Second conjunct: unreadc(EOF) is a no-op. -/
theorem c5_unreadc_readc_round_trip :
    (∀ (fuel : Nat) (s : Files) (c : Int) (s2 : Files),
      buf_ok s → readc fuel s = some (c, s2) → c ≠ -1 →
      readc 2 (unreadc c s2) = some (c, s2)) ∧
    (∀ fs : Files, unreadc (-1) fs = fs) := by
  constructor
  · intro fuel
    induction fuel with
    | zero => intro s c s2 _ h _; simp [readc] at h
    | succ fuel ih =>
      intro s c s2 hok h hc
      rw [readc] at h
      rcases hg : get s with ⟨c1, fs1⟩
      rw [hg] at h
      simp only [] at h
      have hok1 : buf_ok fs1 := by
        have := buf_ok_get s hok
        rw [hg] at this
        exact this
      by_cases hc1 : c1 = -1
      · rw [if_pos hc1] at h
        by_cases hlen : fs1.length = 1
        · rw [if_pos hlen] at h
          simp at h
          exact absurd h.1.symm (hc1 ▸ hc)
        · rw [if_neg hlen] at h
          exact ih fs1.tail c s2 (buf_ok_tail fs1 hok1) h hc
      · rw [if_neg hc1] at h
        by_cases hc92 : c1 = 92
        · subst hc92
          rw [if_pos rfl] at h
          rcases hg2 : get fs1 with ⟨c2, fs2⟩
          rw [hg2] at h
          simp only [] at h
          have hfs1ne : fs1 ≠ [] := (get_ne_nil s 92 fs1 hg (by decide)).2
          have hok2 : buf_ok fs2 := by
            have := buf_ok_get fs1 hok1
            rw [hg2] at this
            exact this
          by_cases hc2 : c2 = 10
          · rw [if_pos hc2] at h
            exact ih fs2 c s2 hok2 h hc
          · rw [if_neg hc2] at h
            simp at h
            obtain ⟨hceq, hs2⟩ := h
            subst hceq
            subst hs2
            have hfs2ne : fs2 ≠ [] := by
              rcases fs1 with _ | ⟨f1, r1⟩
              · exact absurd rfl hfs1ne
              · have := get_snd_ne_nil f1 r1
                rw [hg2] at this
                exact this
            by_cases hc2e : c2 = -1
            · subst hc2e
              rw [unreadc_eof]
              rcases hfs2 : fs2 with _ | ⟨g2, gr2⟩
              · exact absurd hfs2 hfs2ne
              · have hgu := get_unreadc 92 g2 gr2 (by decide) (fun hh => absurd hh (by decide))
                have hidem : get fs2 = (-1, fs2) := get_eof_idem fs1 fs2 hok1 hg2
                rw [hfs2] at hidem
                show readc (1 + 1) (unreadc 92 (g2 :: gr2)) = some (92, g2 :: gr2)
                rw [readc, hgu]
                simp [hidem, unreadc_eof]
            · rcases hfs2 : fs2 with _ | ⟨g2, gr2⟩
              · exact absurd hfs2 hfs2ne
              · have hgu2 := get_unreadc c2 g2 gr2 hc2e (fun hh => absurd hh hc2)
                rcases ht : unreadc c2 (g2 :: gr2) with _ | ⟨g3, gr3⟩
                · rw [unreadc] at ht
                  simp [hc2e] at ht
                · have hgu3 := get_unreadc 92 g3 gr3 (by decide) (fun hh => absurd hh (by decide))
                  rw [ht] at hgu2
                  show readc (1 + 1) (unreadc 92 (g3 :: gr3)) = some (92, g3 :: gr3)
                  rw [readc, hgu3]
                  simp [hgu2, hc2, ht]
        · rw [if_neg hc92] at h
          simp at h
          obtain ⟨hceq, hs2⟩ := h
          subst hceq
          subst hs2
          have hne := (get_ne_nil s c1 fs1 hg hc1).2
          rcases hfs1 : fs1 with _ | ⟨g, grest⟩
          · exact absurd hfs1 hne
          · have hcol : c1 = 10 → g.column = 1 := by
              intro h10
              subst h10
              obtain ⟨g2, r2, heq, hcol1⟩ := get_col_one s fs1 hg
              rw [hfs1] at heq
              obtain ⟨rfl, rfl⟩ := List.cons.injEq .. ▸ heq
              exact hcol1
            have hgu := get_unreadc c1 g grest hc1 hcol
            show readc (1 + 1) (unreadc c1 (g :: grest)) = some (c1, g :: grest)
            rw [readc, hgu]
            simp only []
            rw [if_neg hc1, if_neg hc92]
  · intro fs
    exact unreadc_eof fs


/-- Witness for C5 at a concrete stream: after reading the a of the input
string ab, ungetting it and reading again returns the same a with the same
state. -/
theorem c5_witness :
    readc 2 (unreadc 97 [⟨Backing.str [98], 1, 2, 97, [], 0⟩]) =
      some (97, [⟨Backing.str [98], 1, 2, 97, [], 0⟩]) :=
  c5_unreadc_readc_round_trip.1 5 [make_file_string [97, 98]] 97
    [⟨Backing.str [98], 1, 2, 97, [], 0⟩] (by simp [buf_ok, make_file_string]) (by rfl) (by decide)

/-! ## Lemmas and the claim C8 theorem: pp-number maximal munch -/

theorem readc_backing_str (f : File8) (p : List Nat) (h : f.backing = Backing.str p) :
    readc_backing f = readc_string f := by
  rcases f with ⟨bk, l, col, la, bu, nt⟩
  simp only at h
  subst h
  rfl

theorem readcL_plain_cons (n : Nat) (s : LexSt) (f : File8) (c : Nat) (rest : List Nat)
    (hs : s.files = [f]) (hbuf : f.buf = []) (hbk : f.backing = Backing.str (c :: rest))
    (h0 : c ≠ 0) (h13 : c ≠ 13) (h92 : c ≠ 92) :
    readcL (n + 1) s =
      some ((c : Int),
        { s with files := [get_advance { f with backing := Backing.str rest, last := (c : Int) } (c : Int)] }) := by
  have hm1 : ¬ ((c : Int) = -1) := by omega
  have h92i : ¬ ((c : Int) = 92) := by omega
  rw [readcL, readc, hs, get, hbuf]
  simp only []
  rw [readc_backing_str f _ hbk, readc_string_plain f c rest h0 h13 hbk]
  simp [hm1, h92i, hbuf]

theorem readcL_plain_nil (n : Nat) (s : LexSt) (f : File8)
    (hs : s.files = [f]) (hbuf : f.buf = []) (hbk : f.backing = Backing.str [])
    (h10 : f.last ≠ 10) (hm1 : f.last ≠ -1) :
    readcL (n + 1) s =
      some (10, { s with files := [{ f with last := 10, line := f.line + 1, column := 1 }] }) := by
  rw [readcL, readc, hs, get, hbuf]
  simp only []
  rw [readc_backing_str f _ hbk, readc_string_nil_syn f hbk (by tauto)]
  simp [get_advance, hbuf]






theorem int_bytes_nil : int_bytes [] = [] := rfl

theorem int_bytes_cons (c : Nat) (rest : List Nat) :
    int_bytes (c :: rest) = (c : Int) :: int_bytes rest := rfl

theorem get_advance_fields (f : File8) (c : Int) :
    (get_advance f c).backing = f.backing ∧ (get_advance f c).last = f.last ∧
    (get_advance f c).buf = f.buf ∧ (get_advance f c).ntok = f.ntok := by
  rw [get_advance]
  split
  · simp
  · split
    · simp
    · simp

theorem stop_test_iff (last c : Int) (hl0 : last ≠ 0) (hc0 : c ≠ 0) :
    ((!isdigit c) = true ∧ (!isalpha c) = true ∧ c ≠ 46 ∧ (!(in_eEpP last && in_pm c)) = true)
      ↔ pp_num_char last c = false := by
  simp only [pp_num_char, in_eEpP, in_pm, isdigit, isalpha, Bool.not_eq_true',
    Bool.or_eq_false_iff, Bool.and_eq_false_iff, Bool.or_eq_true, Bool.and_eq_true,
    decide_eq_false_iff_not, decide_eq_true_eq, not_or, not_and]
  omega

theorem pp_num_char_ranges (last c : Int) (h : pp_num_char last c = true) :
    c ≠ 10 ∧ c ≠ -1 ∧ c ≠ 0 := by
  simp only [pp_num_char, isdigit, isalpha, Bool.or_eq_true, Bool.and_eq_true,
    decide_eq_true_eq] at h
  omega

theorem read_number_loop_plain :
    ∀ (cs : List Nat) (fuel : Nat) (b : List Int) (last : Int) (s : LexSt) (f : File8),
    s.files = [f] → f.buf = [] → f.backing = Backing.str cs → plain_bytes cs →
    f.last ≠ 10 → f.last ≠ -1 → last ≠ 0 → cs.length + 2 ≤ fuel →
    ∃ f2 : File8,
      read_number_loop fuel b last s =
        some ({ kind := TokKind.TNUMBER,
                sval := b ++ pp_tail last (int_bytes cs),
                line := s.pos.line, column := s.pos.column, count := f.ntok },
              { s with files := [f2] }) ∧
      f2.ntok = f.ntok + 1 ∧
      ((pp_tail last (int_bytes cs)).length < cs.length →
        f2.backing = Backing.str (cs.drop ((pp_tail last (int_bytes cs)).length + 1)) ∧
        f2.buf = [((cs.getD (pp_tail last (int_bytes cs)).length 0 : Nat) : Int)]) ∧
      ((pp_tail last (int_bytes cs)).length = cs.length →
        f2.backing = Backing.str [] ∧ f2.buf = [10]) := by
  intro cs
  induction cs with
  | nil =>
    intro fuel b last s f hs hbuf hbk hpl h10 hm1 hl0 hle
    obtain ⟨m, rfl⟩ : ∃ m, fuel = m + 2 := ⟨fuel - 2, by simp at hle; omega⟩
    rw [show m + 2 = (m + 1) + 1 from rfl, read_number_loop]
    rw [readcL_plain_nil m s f hs hbuf hbk h10 hm1]
    simp only [Option.pure_def, Option.bind_eq_bind, Option.some_bind]
    rw [if_pos (by simp [isdigit, isalpha, in_pm])]
    refine ⟨⟨Backing.str [], f.line + 1 - 1, 1, 10, [10], f.ntok + 1⟩, ?_, rfl, ?_, ?_⟩
    · simp [make_number, make_token, unreadcL, unreadc, hbk, hbuf, pp_tail]
    · intro h
      simp at h
    · intro _
      exact ⟨rfl, rfl⟩
  | cons c rest ih =>
    intro fuel b last s f hs hbuf hbk hpl h10 hm1 hl0 hle
    obtain ⟨hc0, hc256, hc13, hc92⟩ := hpl c (List.mem_cons_self c rest)
    have hplr : plain_bytes rest := fun x hx => hpl x (List.mem_cons_of_mem c hx)
    obtain ⟨m, rfl⟩ : ∃ m, fuel = m + 2 := ⟨fuel - 2, by simp at hle; omega⟩
    rw [show m + 2 = (m + 1) + 1 from rfl, read_number_loop]
    rw [readcL_plain_cons m s f c rest hs hbuf hbk (by omega) hc13 hc92]
    simp only [Option.pure_def, Option.bind_eq_bind, Option.some_bind]
    have hc0i : (c : Int) ≠ 0 := by omega
    by_cases hnum : pp_num_char last (c : Int) = true
    · rw [if_neg (fun hstop => by
        rw [stop_test_iff last (c : Int) hl0 hc0i] at hstop
        rw [hnum] at hstop
        simp at hstop)]
      obtain ⟨hcn10, hcnm1, hcn0⟩ := pp_num_char_ranges last (c : Int) hnum
      obtain ⟨hadvb, hadvl, hadvbuf, hadvn⟩ :=
        get_advance_fields { f with backing := Backing.str rest, last := (c : Int) } (c : Int)
      obtain ⟨f2, heq, hn, himp1, himp2⟩ :=
        ih (m + 1) (b ++ [(c : Int)]) (c : Int)
          { s with files := [get_advance { f with backing := Backing.str rest, last := (c : Int) } (c : Int)] }
          (get_advance { f with backing := Backing.str rest, last := (c : Int) } (c : Int))
          rfl (by rw [hadvbuf]; simp [hbuf]) (by rw [hadvb]) hplr
          (by rw [hadvl]; simp only []; exact hcn10) (by rw [hadvl]; simp only []; exact hcnm1) hcn0
          (by simp at hle; omega)
      rw [heq]
      refine ⟨f2, ?_, ?_, ?_, ?_⟩
      · have hsval : (b ++ [(c : Int)]) ++ pp_tail (c : Int) (int_bytes rest) =
            b ++ pp_tail last (int_bytes (c :: rest)) := by
          rw [int_bytes_cons, pp_tail, if_pos hnum, List.append_assoc]
          rfl
        rw [← hsval]
        have hcount : (get_advance { f with backing := Backing.str rest, last := (c : Int) } (c : Int)).ntok = f.ntok := by
          rw [hadvn]
        rw [hcount]
      · rw [hn, hadvn]
      · intro hlt
        rw [int_bytes_cons, pp_tail, if_pos hnum] at hlt ⊢
        simp only [List.length_cons] at hlt ⊢
        have hlt2 : (pp_tail (c : Int) (int_bytes rest)).length < rest.length := by omega
        obtain ⟨hb2, hbuf2⟩ := himp1 hlt2
        constructor
        · rw [hb2]
          simp [List.drop_succ_cons]
        · rw [hbuf2]
          simp
      · intro heqlen
        rw [int_bytes_cons, pp_tail, if_pos hnum] at heqlen
        simp only [List.length_cons] at heqlen
        exact himp2 (by omega)
    · rw [if_pos (by
        rw [stop_test_iff last (c : Int) hl0 hc0i]
        simp only [Bool.not_eq_true] at hnum
        exact hnum)]
      have hpt : pp_tail last (int_bytes (c :: rest)) = [] := by
        rw [int_bytes_cons, pp_tail, if_neg hnum]
      by_cases hc10 : (c : Int) = 10
      · refine ⟨⟨Backing.str rest, f.line + 1 - 1, 1, (c : Int), [(c : Int)], f.ntok + 1⟩, ?_, rfl, ?_, ?_⟩
        · simp [make_number, make_token, unreadcL, unreadc, get_advance, hc10, hpt, hbuf]
        · intro _
          rw [hpt]
          simp
        · intro hlen
          rw [hpt] at hlen
          simp at hlen
      · refine ⟨⟨Backing.str rest, f.line, f.column + 1 - 1, (c : Int), [(c : Int)], f.ntok + 1⟩, ?_, rfl, ?_, ?_⟩
        · simp [make_number, make_token, unreadcL, unreadc, get_advance, hc10, hpt, hbuf]
        · intro _
          rw [hpt]
          simp
        · intro hlen
          rw [hpt] at hlen
          simp at hlen


/-- Claim C8: pp-number scanning, entered after its first character (a
digit, or a period followed by a digit), consumes exactly the maximal
following sequence of digits, letters, periods, and plus or minus signs —
the signs exactly when the immediately preceding consumed character is e,
E, p or P — and stores the consumed bytes verbatim as the NUMBER token
payload (first conjunct, for any plain byte content: the remainder facts
say the backing cursor stands right after the scanned prefix with the one
rejected lookahead character in the pushback buffer, or, when the whole
content was consumed, at the end with the synthetic newline pushed back).
Second and third conjuncts: the inputs 1.5e+10f and .32e. lex to the single
NUMBER tokens 1.5e+10f and .32e. respectively. -/
theorem c8_pp_number_maximal_munch :
    (∀ (cs : List Nat) (fuel : Nat) (c0 : Nat) (s : LexSt) (f : File8),
      s.files = [f] → f.buf = [] → f.backing = Backing.str cs → plain_bytes cs →
      f.last ≠ 10 → f.last ≠ -1 → 0 < c0 → cs.length + 2 ≤ fuel →
      ∃ f2 : File8,
        read_number fuel (c0 : Int) s =
          some ({ kind := TokKind.TNUMBER,
                  sval := (c0 : Int) :: pp_tail (c0 : Int) (int_bytes cs),
                  line := s.pos.line, column := s.pos.column, count := f.ntok },
                { s with files := [f2] }) ∧
        ((pp_tail (c0 : Int) (int_bytes cs)).length < cs.length →
          f2.backing = Backing.str (cs.drop ((pp_tail (c0 : Int) (int_bytes cs)).length + 1)) ∧
          f2.buf = [((cs.getD (pp_tail (c0 : Int) (int_bytes cs)).length 0 : Nat) : Int)]) ∧
        ((pp_tail (c0 : Int) (int_bytes cs)).length = cs.length →
          f2.backing = Backing.str [] ∧ f2.buf = [10])) ∧
    (drain_lex 5 60 (lex_init_string [49, 46, 53, 101, 43, 49, 48, 102])).map (List.map Token.view) =
      some [{ kind := TokKind.TNUMBER, sval := [49, 46, 53, 101, 43, 49, 48, 102],
              id := KwId.chr 0, bol := true, space := false, line := 1, column := 1 },
            { kind := TokKind.TNEWLINE, sval := [], id := KwId.chr 0, bol := true,
              space := false, line := 0, column := 0 },
            { kind := TokKind.TEOF, sval := [], id := KwId.chr 0, bol := true,
              space := false, line := 0, column := 0 }] ∧
    (drain_lex 5 60 (lex_init_string [46, 51, 50, 101, 46])).map (List.map Token.view) =
      some [{ kind := TokKind.TNUMBER, sval := [46, 51, 50, 101, 46],
              id := KwId.chr 0, bol := true, space := false, line := 1, column := 1 },
            { kind := TokKind.TNEWLINE, sval := [], id := KwId.chr 0, bol := true,
              space := false, line := 0, column := 0 },
            { kind := TokKind.TEOF, sval := [], id := KwId.chr 0, bol := true,
              space := false, line := 0, column := 0 }] := by
  refine ⟨?_, by rfl, by rfl⟩
  intro cs fuel c0 s f hs hbuf hbk hpl h10 hm1 hc0 hle
  obtain ⟨f2, heq, _, himp1, himp2⟩ :=
    read_number_loop_plain cs fuel [(c0 : Int)] (c0 : Int) s f hs hbuf hbk hpl h10 hm1
      (by omega) hle
  refine ⟨f2, ?_, himp1, himp2⟩
  rw [read_number, heq]
  simp


theorem c8_witness :
    ∃ f2 : File8,
      read_number 6 (49 : Int)
          { files := [make_file_string [46, 53, 122, 59]], buffers := [[]] } =
        some ({ kind := TokKind.TNUMBER, sval := [49, 46, 53, 122],
                line := 0, column := 0, count := 0 },
              { files := [f2], buffers := [[]], pos := { line := 0, column := 0 } }) ∧
      ((3 : Nat) < 4 →
        f2.backing = Backing.str [] ∧ f2.buf = [(59 : Int)]) ∧
      ((3 : Nat) = 4 →
        f2.backing = Backing.str [] ∧ f2.buf = [10]) :=
  c8_pp_number_maximal_munch.1 [46, 53, 122, 59] 6 49
    { files := [make_file_string [46, 53, 122, 59]], buffers := [[]] }
    (make_file_string [46, 53, 122, 59]) rfl rfl rfl
    (by intro b hb; simp at hb; rcases hb with rfl | rfl | rfl | rfl <;> simp)
    (by decide) (by decide) (by decide) (by decide)

/-! ## Lemmas and the claim C10 theorem: NULL-valued bindings -/

theorem probe_next_pow (e i : Nat) : probe_next (2 ^ e) i = (i + 1) % 2 ^ e :=
  Nat.and_pow_two_sub_one_eq_mod (i + 1) e

theorem probe_no_revisit (n i s : Nat) (hi : i < n) (hs : 0 < s) (hsn : s < n) :
    (i + s) % n ≠ i := by
  intro hcontra
  have h2 : i ≡ i + s [MOD n] := by
    unfold Nat.ModEq
    rw [hcontra, Nat.mod_eq_of_lt hi]
  have h3 : n ∣ s := by
    have := (Nat.modEq_iff_dvd' (Nat.le_add_right i s)).mp h2
    simpa using this
  have := Nat.le_of_dvd hs h3
  omega

theorem getD_set_self (l : List Slot) (i : Nat) (a : Slot) (h : i < l.length) :
    (l.set i a).getD i Slot.empty = a := by
  rw [List.getD_eq_getElem?_getD]
  simp [List.getElem?_set_self', h]

theorem getD_set_ne (l : List Slot) (i j : Nat) (a : Slot) (h : i ≠ j) :
    (l.set i a).getD j Slot.empty = l.getD j Slot.empty := by
  rw [List.getD_eq_getElem?_getD, List.getElem?_set_ne h, ← List.getD_eq_getElem?_getD]

theorem putLoop_length (m : HMap) (k : Key) (v : Option Nat) :
    ∀ (fuel i : Nat), (map_put_loop m k v i fuel).slots.length = m.slots.length := by
  intro fuel
  induction fuel with
  | zero => intro i; rfl
  | succ fuel ih =>
    intro i
    rw [map_put_loop]
    cases hslot : m.slots.getD i Slot.empty with
    | empty => simp
    | tomb => simp
    | live k2 v2 =>
      by_cases hk : k2 = k
      · simp [hk]
      · simp [hk]
        exact ih (probe_next m.slots.length i)

theorem putLoop_preserve (m : HMap) (k : Key) (v : Option Nat) (e : Nat)
    (hn : m.slots.length = 2 ^ e) (j : Nat) :
    ∀ (fuel i : Nat), i < m.slots.length →
      (∀ t, t < fuel → (i + t) % m.slots.length ≠ j) →
      (map_put_loop m k v i fuel).slots.getD j Slot.empty = m.slots.getD j Slot.empty := by
  intro fuel
  induction fuel with
  | zero => intro i _ _; rfl
  | succ fuel ih =>
    intro i hi hmiss
    have hij : i ≠ j := by
      have := hmiss 0 (Nat.succ_pos fuel)
      rwa [Nat.add_zero, Nat.mod_eq_of_lt hi] at this
    rw [map_put_loop]
    cases hslot : m.slots.getD i Slot.empty with
    | empty => exact getD_set_ne _ _ _ _ hij
    | tomb => exact getD_set_ne _ _ _ _ hij
    | live k2 v2 =>
      simp only []
      by_cases hk : k2 = k
      · rw [if_pos hk]
        exact getD_set_ne _ _ _ _ hij
      · rw [if_neg hk]
        apply ih (probe_next m.slots.length i)
        · rw [hn, probe_next_pow]
          exact Nat.mod_lt _ (Nat.pos_pow_of_pos e (by omega))
        · intro t ht
          rw [hn, probe_next_pow, Nat.mod_add_mod, Nat.add_assoc]
          have := hmiss (1 + t) (by omega)
          rwa [hn] at this


theorem put_get_plain (m : HMap) (k : Key) (v : Option Nat) (e : Nat)
    (hn : m.slots.length = 2 ^ e) :
    ∀ (fuel i : Nat), fuel ≤ m.slots.length → i < m.slots.length →
      (∃ t, t < fuel ∧ put_stop m k ((i + t) % m.slots.length)) →
      map_get_loop (map_put_loop m k v i fuel).slots k i fuel = v ∧
      Slot.live k v ∈ (map_put_loop m k v i fuel).slots := by
  intro fuel
  induction fuel with
  | zero =>
    intro i _ _ hstop
    obtain ⟨t, ht, _⟩ := hstop
    omega
  | succ fuel ih =>
    intro i hfuel hi hstop
    rw [map_put_loop]
    cases hslot : m.slots.getD i Slot.empty with
    | empty =>
      simp only []
      constructor
      · rw [map_get_loop]
        rw [getD_set_self _ _ _ hi]
        simp
      · exact List.mem_set m.slots i hi (Slot.live k v)
    | tomb =>
      simp only []
      constructor
      · rw [map_get_loop]
        rw [getD_set_self _ _ _ hi]
        simp
      · exact List.mem_set m.slots i hi (Slot.live k v)
    | live k2 v2 =>
      simp only []
      by_cases hk : k2 = k
      · subst hk
        rw [if_pos rfl]
        constructor
        · rw [map_get_loop]
          rw [getD_set_self _ _ _ hi]
          simp
        · exact List.mem_set m.slots i hi (Slot.live k2 v)
      · rw [if_neg hk]
        obtain ⟨t, ht, hstopt⟩ := hstop
        have hnpos : 0 < m.slots.length := by rw [hn]; positivity
        have ht0 : t ≠ 0 := by
          rintro rfl
          rw [Nat.add_zero, Nat.mod_eq_of_lt hi] at hstopt
          rcases hstopt with hst | hst | ⟨v3, hst⟩
          · rw [hslot] at hst; exact Slot.noConfusion hst
          · rw [hslot] at hst; exact Slot.noConfusion hst
          · rw [hslot] at hst
            exact hk (Slot.live.injEq .. ▸ hst).1
        have hi2 : probe_next m.slots.length i < m.slots.length := by
          rw [hn, probe_next_pow]
          exact Nat.mod_lt _ (by positivity)
        have hstop2 : ∃ t2, t2 < fuel ∧
            put_stop m k ((probe_next m.slots.length i + t2) % m.slots.length) := by
          refine ⟨t - 1, by omega, ?_⟩
          rw [hn, probe_next_pow, Nat.mod_add_mod]
          have harith : i + 1 + (t - 1) = i + t := by omega
          rw [harith]
          rwa [hn] at hstopt
        have ihres := ih (probe_next m.slots.length i) (by omega) hi2 hstop2
        have hmiss : ∀ t2, t2 < fuel → (probe_next m.slots.length i + t2) % m.slots.length ≠ i := by
          intro t2 ht2
          rw [hn, probe_next_pow, Nat.mod_add_mod]
          have harith : i + 1 + t2 = i + (1 + t2) := by omega
          rw [harith, ← hn]
          exact probe_no_revisit m.slots.length i (1 + t2) hi (by omega) (by omega)
        have hpres := putLoop_preserve m k v e hn i fuel (probe_next m.slots.length i) hi2 hmiss
        constructor
        · rw [map_get_loop, hpres, hslot]
          simp only []
          rw [if_neg hk]
          rw [putLoop_length]
          exact ihres.1
        · exact ihres.2

theorem maybe_rehash_nelem (m : HMap) : (maybe_rehash m).nelem = m.nelem := by
  rw [maybe_rehash]
  split
  · rfl
  · split
    · rfl
    · rfl

theorem putLoop_nelem (m : HMap) (k : Key) (v : Option Nat) :
    ∀ (fuel i : Nat), m.nelem ≤ (map_put_loop m k v i fuel).nelem := by
  intro fuel
  induction fuel with
  | zero => intro i; exact le_rfl
  | succ fuel ih =>
    intro i
    rw [map_put_loop]
    cases hslot : m.slots.getD i Slot.empty with
    | empty =>
      show m.nelem ≤ m.nelem + 1
      omega
    | tomb =>
      show m.nelem ≤ m.nelem + 1
      omega
    | live k2 v2 =>
      simp only []
      by_cases hk : k2 = k
      · rw [if_pos hk]
      · rw [if_neg hk]
        exact ih (probe_next m.slots.length i)

theorem map_put_get_none (h : HMap) (k : Key) (e : Nat)
    (hpow : (maybe_rehash h).slots.length = 2 ^ e)
    (hemp : Slot.empty ∈ (maybe_rehash h).slots) :
    map_get_nostack (map_put h k none) k = none ∧
    Slot.live k none ∈ (map_put h k none).slots := by
  have hnpos : 0 < (maybe_rehash h).slots.length := by rw [hpow]; positivity
  have hi0 : probe_home (maybe_rehash h).slots.length k < (maybe_rehash h).slots.length := by
    rw [probe_home, hpow, Nat.and_pow_two_sub_one_eq_mod]
    exact Nat.mod_lt _ (by positivity)
  have hstop : ∃ t, t < (maybe_rehash h).slots.length ∧
      put_stop (maybe_rehash h) k
        ((probe_home (maybe_rehash h).slots.length k + t) % (maybe_rehash h).slots.length) := by
    obtain ⟨j, hj, hjs⟩ := List.mem_iff_getElem.mp hemp
    refine ⟨((maybe_rehash h).slots.length + j - probe_home (maybe_rehash h).slots.length k) %
      (maybe_rehash h).slots.length, Nat.mod_lt _ hnpos, ?_⟩
    have harr : (probe_home (maybe_rehash h).slots.length k +
        ((maybe_rehash h).slots.length + j - probe_home (maybe_rehash h).slots.length k) %
          (maybe_rehash h).slots.length) % (maybe_rehash h).slots.length = j := by
      rw [Nat.add_mod_mod]
      have h1 : probe_home (maybe_rehash h).slots.length k +
          ((maybe_rehash h).slots.length + j - probe_home (maybe_rehash h).slots.length k) =
          (maybe_rehash h).slots.length + j := by omega
      rw [h1, Nat.add_mod_left, Nat.mod_eq_of_lt hj]
    rw [harr]
    exact Or.inl (by rw [List.getD_eq_getElem (maybe_rehash h).slots Slot.empty hj]; exact hjs)
  have main := put_get_plain (maybe_rehash h) k none e hpow (maybe_rehash h).slots.length
    (probe_home (maybe_rehash h).slots.length k) le_rfl hi0 hstop
  have hlen : (map_put h k none).slots.length = (maybe_rehash h).slots.length :=
    putLoop_length (maybe_rehash h) k none (maybe_rehash h).slots.length
      (probe_home (maybe_rehash h).slots.length k)
  refine ⟨?_, main.2⟩
  rw [map_get_nostack]
  rw [if_neg (fun hnil => by rw [hnil] at hlen; simp at hlen; omega)]
  rw [hlen]
  exact main.1

/-- Claim C10: after map_put(m, k, NULL) on a map level, map_get on the
chain does not return that binding: the lookup falls through to the parent
levels (a miss when no parent binds k), even though the level now holds a
live slot for k with a NULL value and map_len still counts the binding (it
does not decrease).  Stated for any level whose post-rehash table is a
power of two containing a free slot, which holds for every table the code
builds. -/
theorem c10_null_value_falls_through (h : HMap) (ps : List HMap) (k : Key) (e : Nat)
    (hpow : (maybe_rehash h).slots.length = 2 ^ e)
    (hemp : Slot.empty ∈ (maybe_rehash h).slots) :
    map_get (map_put h k none :: ps) k = map_get ps k ∧
    Slot.live k none ∈ (map_put h k none).slots ∧
    map_len h ≤ map_len (map_put h k none) := by
  have main := map_put_get_none h k e hpow hemp
  refine ⟨?_, main.2, ?_⟩
  · rw [map_get, main.1]
  · rw [map_len, map_len]
    calc h.nelem = (maybe_rehash h).nelem := (maybe_rehash_nelem h).symm
      _ ≤ (map_put h k none).nelem :=
        putLoop_nelem (maybe_rehash h) k none ((maybe_rehash h).slots.length)
          (probe_home (maybe_rehash h).slots.length k)

theorem c10_witness :
    (maybe_rehash make_map).slots.length = 2 ^ 4 ∧
    Slot.empty ∈ (maybe_rehash make_map).slots ∧
    (map_get (map_put make_map keyA none :: [map_put make_map keyA (some 5)]) keyA =
        map_get [map_put make_map keyA (some 5)] keyA ∧
      Slot.live keyA none ∈ (map_put make_map keyA none).slots ∧
      map_len make_map ≤ map_len (map_put make_map keyA none)) :=
  ⟨by decide, by decide,
    c10_null_value_falls_through make_map [map_put make_map keyA (some 5)] keyA 4
      (by decide) (by decide)⟩

end EightCC
